import Mathlib

/-!
# Corner table and texture/picking passes of `cgv::media::mesh::simple_mesh`, and the `normal_estimator` setters

Shallow embedding of `src/cgv/media/mesh/simple_mesh.h` and
`src/libs/point_cloud/normal_estimator.h`.

Conventions of the embedding

* `idx_type` is `cgv::type::uint32_type`.  Values of that type are natural
  numbers; every conversion to `idx_type` and every `idx_type` operation that
  can wrap is written with an explicit reduction modulo `2 ^ 32 = 4294967296`.
* A `std::vector` is a `List`; `size()` is `List.length` (a `size_t`, which is
  not reduced: no vector has `2 ^ 64` elements).
* `v[i]` on a vector is `v[i]?`: reading outside the vector is undefined in
  the source and is `none` here, and a function that performs such a read
  returns `none`.
* `v.at(i)` is range-checked: a member function that uses it ends in an
  `Except` value, `ok` with the state it returns with, or `error` with a
  `failure`: the `std::out_of_range` throw together with the state at the
  throw, or undefined behaviour.  A loop `for (int i = 0; i < n; i++)` is
  undefined once its counter is incremented at `INT_MAX = 2147483647`.
* The floating-point computations of `compute_texcoordi` and `pick_face` and
  the colour store of the base class `colored_model`, which is not among the
  sources, are parameters.
* Coordinate vectors (`vec3`, `vec2`) and materials (`mat_type`) are type
  parameters: the corner table never inspects them.
* `compute_c2f`, `revert_face_orientation` and `extract_triangle_element_buffer` are
  declared in the header and defined in a translation unit that is not among the
  sources.  Their bodies are modelled from the design document, on top of the
  accessors `begin_corner`, `end_corner`, `face_degree`, `get_nr_faces` and
  `get_nr_corners` that the header does define.
-/

namespace I3D

/-! ## `idx_type` arithmetic -/

/-- The conversion `idx_type(n)` of a `size_t` value `n`. -/
def idx_of_size (n : Nat) : Nat := n % 4294967296

/-- The implicit conversion of a signed `int` to `idx_type` (reduction modulo `2 ^ 32`). -/
def idx_of_int (z : Int) : Nat := (z % 4294967296).toNat

/-- The `idx_type` sum `a + b` (wraps modulo `2 ^ 32`). -/
def idx_add (a b : Nat) : Nat := (a + b) % 4294967296

/-- The `idx_type` difference `a - b` (wraps modulo `2 ^ 32`). -/
def idx_sub (a b : Nat) : Nat := idx_of_int ((a : Int) - (b : Int))

/-! ## `simple_mesh_base` -/

/-- The index vectors and pools of `simple_mesh_base` (lines 36-43). -/
structure simple_mesh_base (Mat : Type) where
  position_indices : List Nat
  normal_indices : List Nat
  tex_coord_indices : List Nat
  faces : List Nat
  group_indices : List Nat
  group_names : List String
  material_indices : List Nat
  materials : List Mat

namespace simple_mesh_base

variable {Mat : Type}

/-- Default value of the parameter `normal_index` of `new_corner` (line 50): `-1` as `idx_type`. -/
def new_corner_default_normal_index : Nat := idx_of_int (-1)

/-- Default value of the parameter `tex_coord_index` of `new_corner` (line 50): `-1` as `idx_type`. -/
def new_corner_default_tex_coord_index : Nat := idx_of_int (-1)

/-- Line 52: `c2p(ci) = position_indices[ci]`. -/
def c2p (m : simple_mesh_base Mat) (ci : Nat) : Option Nat := m.position_indices[ci]?

/-- Line 54: `c2n(ci) = normal_indices[ci]`. -/
def c2n (m : simple_mesh_base Mat) (ci : Nat) : Option Nat := m.normal_indices[ci]?

/-- Line 56: `c2t(ci) = tex_coord_indices[ci]`. -/
def c2t (m : simple_mesh_base Mat) (ci : Nat) : Option Nat := m.tex_coord_indices[ci]?

/-- Line 58: `get_nr_faces() = idx_type(faces.size())`. -/
def get_nr_faces (m : simple_mesh_base Mat) : Nat := idx_of_size m.faces.length

/-- Line 60: `get_nr_corners() = idx_type(position_indices.size())`. -/
def get_nr_corners (m : simple_mesh_base Mat) : Nat := idx_of_size m.position_indices.length

/-- Line 62: `begin_corner(fi) = faces[fi]`. -/
def begin_corner (m : simple_mesh_base Mat) (fi : Nat) : Option Nat := m.faces[fi]?

/-- Line 64: `end_corner(fi) = fi + 1 == faces.size() ? idx_type(position_indices.size()) : faces[fi + 1]`.
The sum `fi + 1` is an `idx_type` sum; it is widened to `size_t` for the comparison. -/
def end_corner (m : simple_mesh_base Mat) (fi : Nat) : Option Nat :=
  if idx_add fi 1 = m.faces.length then some (idx_of_size m.position_indices.length)
  else m.faces[idx_add fi 1]?

/-- Line 66: `face_degree(fi) = end_corner(fi) - begin_corner(fi)`, an `idx_type` difference. -/
def face_degree (m : simple_mesh_base Mat) (fi : Nat) : Option Nat :=
  match end_corner m fi, begin_corner m fi with
  | some e, some b => some (idx_sub e b)
  | _, _ => none

/-- Line 68: `get_nr_materials() = materials.size()` (a `size_t`). -/
def get_nr_materials (m : simple_mesh_base Mat) : Nat := m.materials.length

/-- Line 70: `new_material()` appends `mat_type()` and returns `idx_type(materials.size() - 1)`. -/
def new_material [Inhabited Mat] (m : simple_mesh_base Mat) : simple_mesh_base Mat × Nat :=
  let m1 := { m with materials := m.materials ++ [default] }
  (m1, idx_of_size (m1.materials.length - 1))

/-- Line 72: `get_material(i) = materials[i]`. -/
def get_material (m : simple_mesh_base Mat) (i : Nat) : Option Mat := m.materials[i]?

/-- Line 80: `get_nr_groups() = group_names.size()` (a `size_t`). -/
def get_nr_groups (m : simple_mesh_base Mat) : Nat := m.group_names.length

/-- Line 82: `group_name(i) = group_names[i]`. -/
def group_name (m : simple_mesh_base Mat) (i : Nat) : Option String := m.group_names[i]?

/-- Line 86: `new_group(name)` appends `name` and returns `idx_type(group_names.size() - 1)`. -/
def new_group (m : simple_mesh_base Mat) (name : String) : simple_mesh_base Mat × Nat :=
  let m1 := { m with group_names := m.group_names ++ [name] }
  (m1, idx_of_size (m1.group_names.length - 1))

/-- Boundary `k` of the corner array: the start of face `k`, and the corner count once
`k` is past the last face.  Face `f` ranges over `[corner_boundary f, corner_boundary (f + 1))`. -/
def corner_boundary (m : simple_mesh_base Mat) (k : Nat) : Nat :=
  if h : k < m.faces.length then m.faces[k] else get_nr_corners m

/-- Corner `c` lies in the corner range of face `f`, between the boundaries `f` and `f + 1`. -/
def InFace (m : simple_mesh_base Mat) (f c : Nat) : Prop :=
  corner_boundary m f ≤ c ∧ c < corner_boundary m (f + 1)

/-- The face start indices are non-decreasing. -/
def FaceStartsNondecreasing (m : simple_mesh_base Mat) : Prop :=
  m.faces.Pairwise (fun a b => a ≤ b)

/-- The face start indices are strictly increasing. -/
def FaceStartsIncreasing (m : simple_mesh_base Mat) : Prop :=
  m.faces.Pairwise (fun a b => a < b)

/-- No face start index exceeds the corner count `get_nr_corners()`. -/
def FaceStartsBounded (m : simple_mesh_base Mat) : Prop :=
  ∀ b ∈ m.faces, b ≤ get_nr_corners m

/-- The face-partition invariant of the data model: face starts strictly increasing and
bounded by the corner count, and no gap before the first face (a mesh that has a corner
has a face that starts at corner 0). -/
def FacePartition (m : simple_mesh_base Mat) : Prop :=
  FaceStartsIncreasing m ∧ FaceStartsBounded m ∧
    (0 < get_nr_corners m → begin_corner m 0 = some 0)

/-- Modelled from the spec: the inner step of `compute_c2f` (its body is outside the
sources), "stamping every corner in range": the loop
`for (ci = b; ci < e; ++ci) c2f[ci] = fi` over the corners of one face; a write outside
`c2f` is `none`. -/
def stamp_face (c2f : List Nat) (fi b e : Nat) : Option (List Nat) :=
  (List.range' b (e - b)).foldlM
    (fun c ci => if ci < c.length then some (c.set ci fi) else none) c2f

/-- Modelled from the spec: the body of `compute_c2f` (declared at line 107, defined
outside the sources).  The spec: it "assigns each corner the index of the face that
contains it, by scanning face boundaries once and stamping every corner in range".  The
result has one entry per corner; the faces `0 .. get_nr_faces() - 1` are scanned in
order and every corner of `[begin_corner(fi), end_corner(fi))` is stamped with `fi`.  The
spec does not say what an entry holds before it is stamped: it is the parameter `fill`. -/
def compute_c2f (m : simple_mesh_base Mat) (fill : Nat) : Option (List Nat) :=
  (List.range (get_nr_faces m)).foldlM
    (fun c2f fi =>
      match begin_corner m fi, end_corner m fi with
      | some b, some e => stamp_face c2f fi b e
      | _, _ => none)
    (List.replicate (get_nr_corners m) fill)

/-- Modelled from the spec: "reverses the corner order within every face", for one index
vector and the corner range `[b, e)` of one face: the entries of `[b, e)` in reversed
order, the entries before and after them unchanged. -/
def reverse_range (l : List Nat) (b e : Nat) : List Nat :=
  l.take b ++ ((l.drop b).take (e - b)).reverse ++ l.drop e

/-- Modelled from the spec: "swapping any per-corner normal/texcoord pairing
consistently".  A per-corner attribute index vector follows the reversal of the corners
`[b, e)` when it is paired with the corners, i.e. has one entry for each of the `n`
corners; a vector that is not paired (a mesh without normals or without texture
coordinates) is left alone. -/
def reverse_paired (n : Nat) (l : List Nat) (b e : Nat) : List Nat :=
  if l.length = n then reverse_range l b e else l

/-- Modelled from the spec: the step of `revert_face_orientation` (its body is outside
the sources) for face `fi`: the corner order of
`[begin_corner(fi), end_corner(fi))` is reversed in the position indices and in the
paired normal and texture-coordinate indices.  A face range that ends past the corner
array makes the step access entries outside the vectors: `none`. -/
def revert_face (m : simple_mesh_base Mat) (fi : Nat) : Option (simple_mesh_base Mat) :=
  match begin_corner m fi, end_corner m fi with
  | some b, some e =>
    if e ≤ b then some m
    else if e ≤ m.position_indices.length then
      some { m with
        position_indices := reverse_range m.position_indices b e
        normal_indices := reverse_paired m.position_indices.length m.normal_indices b e
        tex_coord_indices :=
          reverse_paired m.position_indices.length m.tex_coord_indices b e }
    else none
  | _, _ => none

/-- Mesh `m` with its three per-corner index vectors replaced. -/
def with_indices (m : simple_mesh_base Mat) (p n t : List Nat) : simple_mesh_base Mat :=
  { m with position_indices := p, normal_indices := n, tex_coord_indices := t }

/-- Modelled from the spec: the body of `revert_face_orientation` (declared at line 92,
defined outside the sources).  The spec: it "reverses the corner order within every face
in place, which also requires swapping any per-corner normal/texcoord pairing
consistently so that winding and attribute correspondence both flip together".  The faces
`0 .. get_nr_faces() - 1` are processed in order, each on the result of the previous. -/
def revert_face_orientation (m : simple_mesh_base Mat) : Option (simple_mesh_base Mat) :=
  (List.range (get_nr_faces m)).foldlM revert_face m

/-- Vector `l` is `l0` with the corner order reversed inside each of the faces
`0 .. k - 1` and unchanged outside them. -/
def MirroredWithin (m : simple_mesh_base Mat) (k : Nat) (l0 l : List Nat) : Prop :=
  l.length = l0.length ∧
  ∀ c, (∀ f, f < k → InFace m f c →
          l[c]? = l0[corner_boundary m f + corner_boundary m (f + 1) - 1 - c]?) ∧
       ((∀ f, f < k → ¬ InFace m f c) → l[c]? = l0[c]?)

/-- Vector `l` is what the reversal of the faces `0 .. k - 1` makes of the attribute index
vector `l0`: mirrored when `l0` is paired with the `n` corners, `l0` itself otherwise. -/
def PairedMirrored (m : simple_mesh_base Mat) (n k : Nat) (l0 l : List Nat) : Prop :=
  (l0.length = n → MirroredWithin m k l0 l) ∧ (l0.length ≠ n → l = l0)

/-- Modelled from the spec: the fan of one face inside `extract_triangle_element_buffer`
(its body is outside the sources), "corner 0, i, i+1 for i = 1..degree-2".  For a face
with first corner `b` and degree `d`: for `i = 1 .. d - 2` the
vertex indices of the corners `b`, `b + i`, `b + i + 1` are appended to the buffer.  A
corner without an entry in `vertex_indices` is a read outside the vector: `none`. -/
def fan_face (vertex_indices : List Nat) (b d : Nat) (buf : List Nat) : Option (List Nat) :=
  (List.range' 1 (d - 2)).foldlM
    (fun buf i =>
      match vertex_indices[b]?, vertex_indices[b + i]?, vertex_indices[b + i + 1]? with
      | some v0, some v1, some v2 => some (buf ++ [v0, v1, v2])
      | _, _, _ => none)
    buf

/-- Modelled from the spec: "optionally honoring a face permutation".  The face drawn at
place `fi`: `fi` itself without a face permutation, the `fi`-th entry of the permutation
otherwise. -/
def permuted_face (face_perm : Option (List Nat)) (fi : Nat) : Option Nat :=
  match face_perm with
  | none => some fi
  | some perm => perm[fi]?

/-- Modelled from the spec: the body of `extract_triangle_element_buffer` (declared at
lines 98-99, defined outside the sources), called without `material_group_start_ptr`.
The spec: it "fan-triangulates each face (corner 0, i, i+1 for i = 1..degree-2) against
the unique-vertex indices, optionally honoring a face permutation".  The places
`0 .. get_nr_faces() - 1` are visited in order and the fan of the face at each place is
appended to a buffer that starts empty. -/
def extract_triangle_element_buffer (m : simple_mesh_base Mat) (vertex_indices : List Nat)
    (face_perm : Option (List Nat)) : Option (List Nat) :=
  (List.range (get_nr_faces m)).foldlM
    (fun buf fi =>
      match permuted_face face_perm fi with
      | some fj =>
        match begin_corner m fj, face_degree m fj with
        | some b, some d => fan_face vertex_indices b d buf
        | _, _ => none
      | none => none)
    []

end simple_mesh_base

/-! ## `simple_mesh<T>` -/

/-- The coordinate pools of `simple_mesh<T>` (lines 135-137) on top of `simple_mesh_base`.
`V3` is `vec3`, `V2` is `vec2`. -/
structure simple_mesh (V3 V2 Mat : Type) extends simple_mesh_base Mat where
  positions : List V3
  normals : List V3
  tex_coords : List V2

namespace simple_mesh

variable {V3 V2 Mat : Type}

/-- Line 148: `new_position(p)` appends `p` and returns `idx_type(positions.size() - 1)`. -/
def new_position (m : simple_mesh V3 V2 Mat) (p : V3) : simple_mesh V3 V2 Mat × Nat :=
  let m1 := { m with positions := m.positions ++ [p] }
  (m1, idx_of_size (m1.positions.length - 1))

/-- Line 150: `get_nr_positions() = idx_type(positions.size())`. -/
def get_nr_positions (m : simple_mesh V3 V2 Mat) : Nat := idx_of_size m.positions.length

/-- Lines 151-152: `position(pi) = positions[pi]`. -/
def position (m : simple_mesh V3 V2 Mat) (pi : Nat) : Option V3 := m.positions[pi]?

/-- Line 156: `new_normal(n)` appends `n` and returns `idx_type(normals.size() - 1)`. -/
def new_normal (m : simple_mesh V3 V2 Mat) (n : V3) : simple_mesh V3 V2 Mat × Nat :=
  let m1 := { m with normals := m.normals ++ [n] }
  (m1, idx_of_size (m1.normals.length - 1))

/-- Line 159: `get_nr_normals() = idx_type(normals.size())`. -/
def get_nr_normals (m : simple_mesh V3 V2 Mat) : Nat := idx_of_size m.normals.length

/-- Lines 160-161: `normal(ni) = normals[ni]`. -/
def normal (m : simple_mesh V3 V2 Mat) (ni : Nat) : Option V3 := m.normals[ni]?

/-- Line 164: `new_tex_coord(tc)` appends `tc` and returns `idx_type(tex_coords.size() - 1)`. -/
def new_tex_coord (m : simple_mesh V3 V2 Mat) (tc : V2) : simple_mesh V3 V2 Mat × Nat :=
  let m1 := { m with tex_coords := m.tex_coords ++ [tc] }
  (m1, idx_of_size (m1.tex_coords.length - 1))

/-- Line 167: `get_nr_tex_coords() = idx_type(tex_coords.size())`. -/
def get_nr_tex_coords (m : simple_mesh V3 V2 Mat) : Nat := idx_of_size m.tex_coords.length

/-- Lines 168-169: `tex_coord(ti) = tex_coords[ti]`. -/
def tex_coord (m : simple_mesh V3 V2 Mat) (ti : Nat) : Option V2 := m.tex_coords[ti]?

/-- Line 86 on a `simple_mesh`: `new_group` of the base class, the pools untouched. -/
def new_group (m : simple_mesh V3 V2 Mat) (name : String) : simple_mesh V3 V2 Mat × Nat :=
  ({ m with tosimple_mesh_base := (m.tosimple_mesh_base.new_group name).1 },
    (m.tosimple_mesh_base.new_group name).2)

/-- Line 70 on a `simple_mesh`: `new_material` of the base class, the pools untouched. -/
def new_material [Inhabited Mat] (m : simple_mesh V3 V2 Mat) : simple_mesh V3 V2 Mat × Nat :=
  ({ m with tosimple_mesh_base := m.tosimple_mesh_base.new_material.1 },
    m.tosimple_mesh_base.new_material.2)

end simple_mesh

/-- What the claim on the append operations asks of one of them: the call returned the
count `count_before` the pool had before it, the count afterwards is one more, the
accessor afterwards yields the appended element `x` at the returned index, and it yields
what it yielded before at every index below `count_before`. -/
def AppendReturnsIndex {α : Type} (count_before count_after returned : Nat)
    (get_before get_after : Nat → Option α) (x : α) : Prop :=
  returned = count_before ∧ count_after = count_before + 1 ∧ get_after returned = some x ∧
    ∀ i, i < count_before → get_after i = get_before i

/-! ## `normal_estimator` -/

/-- The objects a `normal_estimator` can be bound to, by address.  `point_cloud` and
`neighbor_graph` are declared in headers that are not part of the sources; their values
are the type parameters `PC` and `NG`, and assigning one such object to another copies
the value. -/
structure estimator_heap (PC NG : Type) where
  point_clouds : Nat → PC
  neighbor_graphs : Nat → NG

/-- The reference members `point_cloud& pc` and `neighbor_graph& ng` of
`normal_estimator` (lines 18-19): the addresses of the objects they are bound to.  The
scalar parameters of the estimator (lines 21-29) are not touched by the setters. -/
structure normal_estimator where
  pc : Nat
  ng : Nat

namespace normal_estimator

variable {PC NG : Type}

/-- Lines 63-65: `void set_pc(point_cloud& _pc) { pc = _pc; }`.  `pc` is a reference
member, so `pc = _pc` is an assignment to the object `pc` is bound to: that object
receives a copy of `_pc`, and the binding of `pc` stays what the constructor made it. -/
def set_pc (est : normal_estimator) (h : estimator_heap PC NG) (_pc : Nat) :
    normal_estimator × estimator_heap PC NG :=
  (est, { h with point_clouds := Function.update h.point_clouds est.pc (h.point_clouds _pc) })

/-- Lines 67-69: `void set_ng(neighbor_graph& _ng) { ng = _ng; }`, an assignment to the
object the reference member `ng` is bound to. -/
def set_ng (est : normal_estimator) (h : estimator_heap PC NG) (_ng : Nat) :
    normal_estimator × estimator_heap PC NG :=
  (est, { h with
    neighbor_graphs := Function.update h.neighbor_graphs est.ng (h.neighbor_graphs _ng) })

end normal_estimator

/-! ## Member functions that can throw: `compute_texcoordi` and `pick_face` -/

/-- How a call ends when it does not return.  `out_of_range state`: a `vector::at` threw
`std::out_of_range` while the object was in `state`.  `undefined`: an `int` loop counter
was incremented at `INT_MAX = 2147483647`, a signed overflow, which is undefined. -/
inductive failure (S : Type) where
  | out_of_range (state : S)
  | undefined

/-- The range-checked read `v.at(i)`, made while the object is in state `s`. -/
def vector_at {α S : Type} (v : List α) (i : Nat) (s : S) : Except (failure S) α :=
  match v[i]? with
  | some a => Except.ok a
  | none => Except.error (failure.out_of_range s)

/-- The loop `for (int i = 0; i < n; i++) body` for an unsigned bound `n` that the body
does not change: the body runs for `i = 0, 1, ..` below `n`, a throw of the body ends the
loop, and the increment after the body has run at `i = 2147483647` is undefined. -/
def for_int {S : Type} (n : Nat) (body : S → Nat → Except (failure S) S) (s : S) :
    Except (failure S) S :=
  (List.range n).foldlM
    (fun s i =>
      match body s i with
      | Except.ok s1 => if i = 2147483647 then Except.error failure.undefined else Except.ok s1
      | Except.error e => Except.error e)
    s

/-- The value of a finished call: the state it returned with, if it returned. -/
def returned {S : Type} (r : Except (failure S) S) : Option S :=
  match r with
  | Except.ok s => some s
  | Except.error _ => none

/-- The floating-point part of `compute_texcoordi` (lines 184-228), which works on `float`,
`vec3`, `vec2` and `quat` values of the cgv math library: it is a parameter.
`pdir rx ry rz camera_intrinsic position` is the direction of lines 184-216 (camera pose,
alignment rotations, intrinsic scaling, normalisation, rotation); `rejected pdir normal`
is the test `dot(pdir, normal) < 0.2` of line 220; `rejected_tc` is `vec2(-1, -1)` of
line 221; `uv pdir` is `vec2(1 - u, v)` of lines 226-228. -/
structure texcoord_kernel (F V3 V2 : Type) where
  pdir : F → F → F → V3 → V3 → V3
  rejected : V3 → V3 → Bool
  rejected_tc : V2
  uv : V3 → V2

/-- The floating-point part of `pick_face` (lines 262-266) and the colour store of the
base class `colored_model`, which is not among the sources: they are parameters.
`face_normal a b c` is `(a + b + c) / 3.0` of line 262; `edge_test a b p n` is
`dot(cross(b - a, p - a), n) >= 0` of lines 264-266; `C` is the state of the colour
store and `set_color c i` its state after `set_color(i, rgb(1, 1, 0))`. -/
structure pick_kernel (V3 C : Type) where
  face_normal : V3 → V3 → V3 → V3
  edge_test : V3 → V3 → V3 → V3 → Bool
  set_color : C → Nat → C

namespace simple_mesh

variable {F V3 V2 Mat C : Type}

/-- Mesh `m` with its texture-coordinate pool and texture-coordinate indices replaced. -/
def with_tex (m : simple_mesh V3 V2 Mat) (tcs : List V2) (tis : List Nat) :
    simple_mesh V3 V2 Mat :=
  { m with tex_coords := tcs, tex_coord_indices := tis }

/-- Lines 183-229, the body of the first loop of `compute_texcoordi` for position `i`:
`positions.at(i)` is read, then `normals.at(i)`, then one texture coordinate is pushed,
`vec2(-1, -1)` for a rejected point (followed by `continue`) and `vec2(1 - u, v)`
otherwise. -/
def texcoordi_position_step (K : texcoord_kernel F V3 V2) (rx ry rz : F)
    (camera_intrinsic : V3) (s : simple_mesh V3 V2 Mat) (i : Nat) :
    Except (failure (simple_mesh V3 V2 Mat)) (simple_mesh V3 V2 Mat) := do
  let pos ← vector_at s.positions i s
  let pdir := K.pdir rx ry rz camera_intrinsic pos
  let nml ← vector_at s.normals i s
  if K.rejected pdir nml then
    pure { s with tex_coords := s.tex_coords ++ [K.rejected_tc] }
  else
    pure { s with tex_coords := s.tex_coords ++ [K.uv pdir] }

/-- Line 231, the body of the second loop of `compute_texcoordi` for corner `i`:
`tex_coord_indices.push_back(position_indices.at(i))`. -/
def texcoordi_corner_step (s : simple_mesh V3 V2 Mat) (i : Nat) :
    Except (failure (simple_mesh V3 V2 Mat)) (simple_mesh V3 V2 Mat) := do
  let pidx ← vector_at s.position_indices i s
  pure { s with tex_coord_indices := s.tex_coord_indices ++ [pidx] }

/-- Lines 178-233: `compute_texcoordi(rx, ry, rz, camera_intrinsic)`.  Both pools are
cleared, then the loop over `i < get_nr_positions()` and the loop over
`i < get_nr_corners()` run, each with an `int` counter. -/
def compute_texcoordi (K : texcoord_kernel F V3 V2) (rx ry rz : F) (camera_intrinsic : V3)
    (m : simple_mesh V3 V2 Mat) :
    Except (failure (simple_mesh V3 V2 Mat)) (simple_mesh V3 V2 Mat) := do
  let m0 := with_tex m [] []
  let m1 ← for_int (get_nr_positions m0)
    (texcoordi_position_step K rx ry rz camera_intrinsic) m0
  for_int (simple_mesh_base.get_nr_corners m1.tosimple_mesh_base) texcoordi_corner_step m1

/-- Lines 249-273, the body of the loop of `pick_face` for face `fidx`, the colour store
being in state `c`: the position indices of the corners `faces.at(fidx)`,
`faces.at(fidx) + 1` and `faces.at(fidx) + 2` (sums of `idx_type`) are read, then their
positions, then the normal at the first position index, three times; when the three
edge tests hold, the three positions are coloured. -/
def pick_face_step (K : pick_kernel V3 C) (m : simple_mesh V3 V2 Mat) (p : V3) (c : C)
    (fidx : Nat) : Except (failure C) C := do
  let pidx_1 ← vector_at m.position_indices (← vector_at m.faces fidx c) c
  let pidx_2 ← vector_at m.position_indices (idx_add (← vector_at m.faces fidx c) 1) c
  let pidx_3 ← vector_at m.position_indices (idx_add (← vector_at m.faces fidx c) 2) c
  let p_1 ← vector_at m.positions pidx_1 c
  let p_2 ← vector_at m.positions pidx_2 c
  let p_3 ← vector_at m.positions pidx_3 c
  let face_n := K.face_normal (← vector_at m.normals pidx_1 c)
    (← vector_at m.normals pidx_1 c) (← vector_at m.normals pidx_1 c)
  if K.edge_test p_1 p_2 p face_n then
    if K.edge_test p_2 p_3 p face_n then
      if K.edge_test p_3 p_1 p face_n then
        pure (K.set_color (K.set_color (K.set_color c pidx_1) pidx_2) pidx_3)
      else pure c
    else pure c
  else pure c

/-- Lines 241-275: `pick_face(p)`, a loop over `fidx < faces.size()` with an `int`
counter, started with the colour store in state `c`. -/
def pick_face (K : pick_kernel V3 C) (m : simple_mesh V3 V2 Mat) (p : V3) (c : C) :
    Except (failure C) C :=
  for_int m.faces.length (pick_face_step K m p) c

/-- The position indices of the first three corners of face `f`, when the face start and
the three corners exist. -/
def face_first_positions (m : simple_mesh V3 V2 Mat) (f : Nat) : Option (Nat × Nat × Nat) :=
  match m.faces[f]? with
  | none => none
  | some b =>
    match m.position_indices[b]?, m.position_indices[idx_add b 1]?,
      m.position_indices[idx_add b 2]? with
    | some i1, some i2, some i3 => some (i1, i2, i3)
    | _, _, _ => none

/-- The positions that face `f` colours when it colours: its first three, in order. -/
def coloured_by (m : simple_mesh V3 V2 Mat) (f : Nat) : List Nat :=
  match face_first_positions m f with
  | some (i1, i2, i3) => [i1, i2, i3]
  | none => []

end simple_mesh

/-! ## Concrete meshes used as test inputs -/

/-- A mesh right after one `start_face()` on the empty mesh: one face start, no corner. -/
def mesh_open_face : simple_mesh_base Unit :=
  { position_indices := [], normal_indices := [], tex_coord_indices := [], faces := [0],
    group_indices := [], group_names := [], material_indices := [], materials := [] }

/-- A mesh whose `faces` vector has `2 ^ 32 + 1` entries (all `7`) and no corner. -/
def mesh_many_faces : simple_mesh_base Unit :=
  { position_indices := [], normal_indices := [], tex_coord_indices := [],
    faces := List.replicate 4294967297 7,
    group_indices := [], group_names := [], material_indices := [], materials := [] }

/-- A triangle followed by a quadrilateral: 7 corners, faces starting at 0 and 3. -/
def mesh_tri_quad : simple_mesh_base Unit :=
  { position_indices := [0, 1, 2, 2, 1, 3, 4], normal_indices := [], tex_coord_indices := [],
    faces := [0, 3],
    group_indices := [], group_names := [], material_indices := [], materials := [] }

/-- The triangle-plus-quadrilateral mesh with normal indices paired to its corners and
no texture coordinates. -/
def mesh_tri_quad_normals : simple_mesh_base Unit :=
  { position_indices := [0, 1, 2, 2, 1, 3, 4], normal_indices := [5, 6, 7, 8, 9, 10, 11],
    tex_coord_indices := [], faces := [0, 3],
    group_indices := [], group_names := [], material_indices := [], materials := [] }

/-- A mesh whose position pool has `2 ^ 32 - 1` entries. -/
def mesh_full_positions : simple_mesh Unit Unit Unit :=
  { position_indices := [], normal_indices := [], tex_coord_indices := [], faces := [],
    group_indices := [], group_names := [], material_indices := [], materials := [],
    positions := List.replicate 4294967295 (), normals := [], tex_coords := [] }

/-- A mesh with two positions, one normal, no texture coordinate, one group, no material. -/
def mesh_small_pools : simple_mesh Nat Nat Nat :=
  { position_indices := [], normal_indices := [], tex_coord_indices := [], faces := [],
    group_indices := [], group_names := ["g"], material_indices := [], materials := [],
    positions := [10, 11], normals := [20], tex_coords := [] }

/-- Two point clouds `P = [1, 2]` at address 0 and `Q = [3]` at address 1 (every other
address holds the empty cloud), two neighbor graphs `G = [[1], [0]]` at address 0 and
`H = [[]]` at address 1. -/
def heap_two_clouds : estimator_heap (List Nat) (List (List Nat)) :=
  { point_clouds := fun a => if a = 0 then [1, 2] else if a = 1 then [3] else [],
    neighbor_graphs := fun a => if a = 0 then [[1], [0]] else if a = 1 then [[]] else [] }

/-- An estimator constructed on the point cloud and the neighbor graph at address 0. -/
def estimator_on_first : normal_estimator := { pc := 0, ng := 0 }

/-- A texture kernel on numbers: the direction is the position plus the three angles and
the intrinsic, a point is rejected when its direction is below its normal, the rejected
coordinate is 0, and the coordinate of an accepted direction is one more than it. -/
def kernel_numbers : texcoord_kernel Nat Nat Nat :=
  { pdir := fun rx ry rz ci pos => pos + rx + ry + rz + ci,
    rejected := fun pdir nml => decide (pdir < nml),
    rejected_tc := 0,
    uv := fun pdir => pdir + 1 }

/-- One position, no normal, no texture coordinate and no texture-coordinate index. -/
def mesh_position_without_normal : simple_mesh Nat Nat Unit :=
  { position_indices := [0, 0, 0], normal_indices := [], tex_coord_indices := [],
    faces := [0],
    group_indices := [], group_names := [], material_indices := [], materials := [],
    positions := [7], normals := [], tex_coords := [] }

/-- Two positions and `2 ^ 32 + 1` normals (all `5`). -/
def mesh_many_normals : simple_mesh Nat Nat Unit :=
  { position_indices := [0, 1, 0], normal_indices := [], tex_coord_indices := [],
    faces := [0],
    group_indices := [], group_names := [], material_indices := [], materials := [],
    positions := [7, 8], normals := List.replicate 4294967297 5, tex_coords := [] }

/-- A triangle and a quadrilateral over five positions with a normal for each, and stale
texture data: two texture coordinates and one texture-coordinate index. -/
def mesh_tri_quad_pools : simple_mesh Nat Nat Unit :=
  { position_indices := [0, 1, 2, 2, 1, 3, 4], normal_indices := [],
    tex_coord_indices := [9], faces := [0, 3],
    group_indices := [], group_names := [], material_indices := [], materials := [],
    positions := [10, 20, 30, 40, 50], normals := [5, 25, 30, 100, 0],
    tex_coords := [77, 78] }

/-- A picking kernel on numbers: the face normal is the sum of its three arguments, an
edge test holds when `a + n` is at most `b + p`, and the colour store is the list of the
coloured position indices, latest last. -/
def kernel_pick_numbers : pick_kernel Nat (List Nat) :=
  { face_normal := fun a b c => a + b + c,
    edge_test := fun a b p n => decide (a + n ≤ b + p),
    set_color := fun c i => c ++ [i] }

/-- Two positions of which only the first has a normal, and stale texture data: one
texture coordinate and one texture-coordinate index. -/
def mesh_stale_tex_missing_normal : simple_mesh Nat Nat Unit :=
  { position_indices := [0, 1, 0], normal_indices := [], tex_coord_indices := [9],
    faces := [0],
    group_indices := [], group_names := [], material_indices := [], materials := [],
    positions := [7, 8], normals := [5], tex_coords := [77] }

/-! ## Basic facts about the accessors -/

open simple_mesh_base

variable {Mat : Type}

theorem lt_nr_faces {m : simple_mesh_base Mat} {f : Nat} (hf : f < get_nr_faces m) :
    f < m.faces.length ∧ f + 1 < 4294967296 := by
  unfold get_nr_faces idx_of_size at hf
  omega

theorem get_nr_faces_of_length {m : simple_mesh_base Mat} {n : Nat} (h : m.faces.length = n) :
    get_nr_faces m = n % 4294967296 := by
  unfold get_nr_faces idx_of_size
  rw [h]

theorem idx_add_one_of_lt {f : Nat} (h : f + 1 < 4294967296) : idx_add f 1 = f + 1 := by
  unfold idx_add
  omega

theorem idx_sub_of_le {a b : Nat} (hab : b ≤ a) (ha : a < 4294967296) : idx_sub a b = a - b := by
  unfold idx_sub idx_of_int
  omega

theorem begin_corner_of_lt {m : simple_mesh_base Mat} {f : Nat} (hf : f < m.faces.length) :
    begin_corner m f = some (m.faces[f]) := by
  unfold begin_corner
  exact List.getElem?_eq_getElem hf

theorem end_corner_last {m : simple_mesh_base Mat} {f : Nat} (hl : f + 1 = m.faces.length)
    (h32 : f + 1 < 4294967296) : end_corner m f = some (get_nr_corners m) := by
  unfold end_corner get_nr_corners
  rw [idx_add_one_of_lt h32, if_pos hl]

theorem end_corner_inner {m : simple_mesh_base Mat} {f : Nat} (hl : f + 1 < m.faces.length)
    (h32 : f + 1 < 4294967296) : end_corner m f = some (m.faces[f + 1]) := by
  unfold end_corner
  rw [idx_add_one_of_lt h32, if_neg (by omega)]
  exact List.getElem?_eq_getElem hl

theorem get_nr_corners_lt (m : simple_mesh_base Mat) : get_nr_corners m < 4294967296 := by
  unfold get_nr_corners idx_of_size
  omega

theorem faces_lt_of_lt {m : simple_mesh_base Mat} (hinc : FaceStartsIncreasing m) {i j : Nat}
    (hij : i < j) (hj : j < m.faces.length) :
    m.faces[i] < m.faces[j] :=
  (List.pairwise_iff_getElem.1 hinc) i j (by omega) hj hij

theorem faces_le_nr_corners {m : simple_mesh_base Mat} (hbd : FaceStartsBounded m) {i : Nat}
    (hi : i < m.faces.length) : m.faces[i] ≤ get_nr_corners m :=
  hbd _ (List.getElem_mem hi)

/-- In a strictly increasing vector of face starts the `i`-th start is at least `i`. -/
theorem le_faces_of_increasing {m : simple_mesh_base Mat} (hinc : FaceStartsIncreasing m) :
    ∀ (i : Nat) (hi : i < m.faces.length), i ≤ m.faces[i] := by
  intro i
  induction i with
  | zero => intro _; exact Nat.zero_le _
  | succ k ih =>
    intro hk
    have h1 := ih (by omega)
    have h2 := faces_lt_of_lt hinc (i := k) (j := k + 1) (by omega) hk
    omega

/-- Strictly increasing face starts bounded by `get_nr_corners()` fit in an `idx_type`
count as soon as `get_nr_faces()` is not zero. -/
theorem nr_faces_eq_length {m : simple_mesh_base Mat} (hinc : FaceStartsIncreasing m)
    (hbd : FaceStartsBounded m) (hpos : 0 < get_nr_faces m) :
    get_nr_faces m = m.faces.length := by
  have hN := get_nr_corners_lt m
  have hlen : 0 < m.faces.length := (lt_nr_faces hpos).1
  have h1 := le_faces_of_increasing hinc (m.faces.length - 1) (by omega)
  have h2 := faces_le_nr_corners hbd (i := m.faces.length - 1) (by omega)
  unfold get_nr_faces idx_of_size at hpos ⊢
  omega

theorem nondecreasing_of_increasing {m : simple_mesh_base Mat} (h : FaceStartsIncreasing m) :
    FaceStartsNondecreasing m :=
  List.Pairwise.imp (fun h => Nat.le_of_lt h) h

theorem faces_le_of_le {m : simple_mesh_base Mat} (hmono : FaceStartsNondecreasing m)
    {i j : Nat} (hij : i ≤ j) (hj : j < m.faces.length) :
    m.faces[i] ≤ m.faces[j] := by
  rcases Nat.eq_or_lt_of_le hij with h | h
  · subst h; exact le_refl _
  · exact (List.pairwise_iff_getElem.1 hmono) i j (by omega) hj h

/-- Among the faces that start at or before corner `c`, the last one. -/
theorem exists_last_face_start_le {m : simple_mesh_base Mat} (c : Nat) :
    ∀ (d k : Nat) (hk : k < m.faces.length), m.faces.length - 1 - k = d → m.faces[k] ≤ c →
      ∃ (f : Nat) (hf : f < m.faces.length), m.faces[f] ≤ c ∧
        ∀ (h : f + 1 < m.faces.length), c < m.faces[f + 1] := by
  intro d
  induction d with
  | zero =>
    intro k hk hd hle
    exact ⟨k, hk, hle, fun h => by omega⟩
  | succ d ih =>
    intro k hk hd hle
    have hk1 : k + 1 < m.faces.length := by omega
    by_cases hc : m.faces[k + 1] ≤ c
    · exact ih (k + 1) hk1 (by omega) hc
    · exact ⟨k, hk, hle, fun _ => by omega⟩

theorem begin_corner_eq_some {m : simple_mesh_base Mat} {f b : Nat} (hf : f < m.faces.length)
    (h : begin_corner m f = some b) : b = m.faces[f] := by
  rw [begin_corner_of_lt hf] at h
  exact (Option.some.inj h).symm

theorem corner_boundary_of_lt {m : simple_mesh_base Mat} {k : Nat} (hk : k < m.faces.length) :
    corner_boundary m k = m.faces[k] := by
  unfold corner_boundary
  rw [dif_pos hk]

theorem corner_boundary_length (m : simple_mesh_base Mat) :
    corner_boundary m m.faces.length = get_nr_corners m := by
  unfold corner_boundary
  rw [dif_neg (lt_irrefl _)]

theorem begin_corner_boundary {m : simple_mesh_base Mat} {f : Nat} (hf : f < m.faces.length) :
    begin_corner m f = some (corner_boundary m f) := by
  rw [corner_boundary_of_lt hf]
  exact begin_corner_of_lt hf

theorem end_corner_boundary {m : simple_mesh_base Mat} {f : Nat} (hf : f < m.faces.length)
    (h32 : f + 1 < 4294967296) : end_corner m f = some (corner_boundary m (f + 1)) := by
  by_cases hl : f + 1 = m.faces.length
  · rw [end_corner_last hl h32, hl, corner_boundary_length]
  · have hl2 : f + 1 < m.faces.length := by omega
    rw [end_corner_inner hl2 h32, corner_boundary_of_lt hl2]

theorem corner_boundary_of_ge {m : simple_mesh_base Mat} {k : Nat} (hk : m.faces.length ≤ k) :
    corner_boundary m k = get_nr_corners m := by
  unfold corner_boundary
  rw [dif_neg (by omega)]

theorem corner_boundary_le_succ {m : simple_mesh_base Mat} (hmono : FaceStartsNondecreasing m)
    (hbd : FaceStartsBounded m) (f : Nat) :
    corner_boundary m f ≤ corner_boundary m (f + 1) := by
  by_cases hf : f < m.faces.length
  · rw [corner_boundary_of_lt hf]
    by_cases hl : f + 1 = m.faces.length
    · rw [hl, corner_boundary_length]
      exact faces_le_nr_corners hbd hf
    · have hl2 : f + 1 < m.faces.length := by omega
      rw [corner_boundary_of_lt hl2]
      exact faces_le_of_le hmono (Nat.le_succ f) hl2
  · rw [corner_boundary_of_ge (by omega), corner_boundary_of_ge (by omega)]

theorem corner_boundary_mono {m : simple_mesh_base Mat} (hmono : FaceStartsNondecreasing m)
    (hbd : FaceStartsBounded m) {f g : Nat} (hfg : f ≤ g) :
    corner_boundary m f ≤ corner_boundary m g := by
  induction g with
  | zero =>
    have : f = 0 := by omega
    subst this
    exact le_refl _
  | succ k ih =>
    rcases Nat.eq_or_lt_of_le hfg with h | h
    · subst h; exact le_refl _
    · exact le_trans (ih (by omega)) (corner_boundary_le_succ hmono hbd k)

theorem corner_boundary_le_nr_corners {m : simple_mesh_base Mat} (hbd : FaceStartsBounded m)
    (k : Nat) : corner_boundary m k ≤ get_nr_corners m := by
  by_cases hk : k < m.faces.length
  · rw [corner_boundary_of_lt hk]
    exact faces_le_nr_corners hbd hk
  · rw [corner_boundary_of_ge (by omega)]

theorem corner_boundary_lt (m : simple_mesh_base Mat) (hbd : FaceStartsBounded m) (k : Nat) :
    corner_boundary m k < 4294967296 := by
  have hN := get_nr_corners_lt m
  unfold corner_boundary
  split
  · next h =>
    have := faces_le_nr_corners hbd h
    omega
  · exact hN

theorem face_degree_boundary {m : simple_mesh_base Mat} (hmono : FaceStartsNondecreasing m)
    (hbd : FaceStartsBounded m) {f : Nat} (hf : f < m.faces.length) (h32 : f + 1 < 4294967296) :
    face_degree m f = some (corner_boundary m (f + 1) - corner_boundary m f) := by
  unfold face_degree
  rw [end_corner_boundary hf h32, begin_corner_boundary hf]
  simp only
  rw [idx_sub_of_le (corner_boundary_le_succ hmono hbd f) (corner_boundary_lt m hbd _)]

theorem sum_face_degree_boundary {m : simple_mesh_base Mat} (hmono : FaceStartsNondecreasing m)
    (hbd : FaceStartsBounded m) (h32 : m.faces.length < 4294967296) :
    ∀ k, k ≤ m.faces.length →
      Finset.sum (Finset.range k) (fun f => (face_degree m f).getD 0) + corner_boundary m 0
        = corner_boundary m k := by
  intro k
  induction k with
  | zero => intro _; simp
  | succ k ih =>
    intro hk
    have hk1 : k < m.faces.length := by omega
    rw [Finset.sum_range_succ, face_degree_boundary hmono hbd hk1 (by omega)]
    have h1 := ih (by omega)
    have h2 := corner_boundary_le_succ hmono hbd k
    simp only [Option.getD_some]
    omega

/-- Appending to a pool whose count is an `idx_type` (`get_nr_positions`, `get_nr_normals`,
`get_nr_tex_coords`): correct as long as the new size still fits in 32 bits. -/
theorem append_returns_index_idx {α : Type} (l : List α) (x : α)
    (h : l.length + 1 < 4294967296) :
    AppendReturnsIndex (idx_of_size l.length) (idx_of_size (l ++ [x]).length)
      (idx_of_size ((l ++ [x]).length - 1)) (fun i => l[i]?) (fun i => (l ++ [x])[i]?) x := by
  have hlen : (l ++ [x]).length = l.length + 1 := by simp
  have h1 : idx_of_size l.length = l.length := by unfold idx_of_size; omega
  have h2 : idx_of_size (l.length + 1) = l.length + 1 := by unfold idx_of_size; omega
  rw [hlen, Nat.add_sub_cancel, h1, h2]
  refine ⟨rfl, rfl, ?_, ?_⟩
  · simp
  · intro i hi
    exact List.getElem?_append_left hi

/-- Appending to a pool whose count is a `size_t` (`get_nr_groups`, `get_nr_materials`):
the returned `idx_type` index is the old count as long as the old count fits in 32 bits. -/
theorem append_returns_index_size {α : Type} (l : List α) (x : α)
    (h : l.length < 4294967296) :
    AppendReturnsIndex l.length (l ++ [x]).length
      (idx_of_size ((l ++ [x]).length - 1)) (fun i => l[i]?) (fun i => (l ++ [x])[i]?) x := by
  have hlen : (l ++ [x]).length = l.length + 1 := by simp
  have h1 : idx_of_size l.length = l.length := by unfold idx_of_size; omega
  rw [hlen, Nat.add_sub_cancel, h1]
  refine ⟨rfl, rfl, ?_, ?_⟩
  · simp
  · intro i hi
    exact List.getElem?_append_left hi

theorem get_nr_positions_of_length {V3 V2 Mat : Type} {m : simple_mesh V3 V2 Mat} {n : Nat}
    (h : m.positions.length = n) : simple_mesh.get_nr_positions m = n % 4294967296 := by
  unfold simple_mesh.get_nr_positions idx_of_size
  rw [h]

theorem get_nr_positions_new_position {V3 V2 Mat : Type} (m : simple_mesh V3 V2 Mat) (p : V3)
    {n : Nat} (h : m.positions.length = n) :
    simple_mesh.get_nr_positions (simple_mesh.new_position m p).1 = (n + 1) % 4294967296 := by
  apply get_nr_positions_of_length
  show (m.positions ++ [p]).length = n + 1
  rw [List.length_append, h]
  rfl

/-- For a face index below `get_nr_faces()`, membership in the face is membership in
`[begin_corner(f), end_corner(f))`. -/
theorem inFace_iff {m : simple_mesh_base Mat} {f : Nat} (hf : f < get_nr_faces m) (c : Nat) :
    InFace m f c ↔
      ∃ b e, begin_corner m f = some b ∧ end_corner m f = some e ∧ b ≤ c ∧ c < e := by
  obtain ⟨hlen, h32⟩ := lt_nr_faces hf
  constructor
  · rintro ⟨h1, h2⟩
    exact ⟨_, _, begin_corner_boundary hlen, end_corner_boundary hlen h32, h1, h2⟩
  · rintro ⟨b, e, hb, he, h1, h2⟩
    rw [begin_corner_boundary hlen] at hb
    rw [end_corner_boundary hlen h32] at he
    have hb2 := Option.some.inj hb
    have he2 := Option.some.inj he
    exact ⟨by omega, by omega⟩

/-- The corner ranges of two different faces do not overlap. -/
theorem inFace_unique {m : simple_mesh_base Mat} (hmono : FaceStartsNondecreasing m)
    (hbd : FaceStartsBounded m) {f g c : Nat} (hf : InFace m f c) (hg : InFace m g c) :
    f = g := by
  rcases Nat.lt_trichotomy f g with h | h | h
  · have := corner_boundary_mono hmono hbd (f := f + 1) (g := g) (by omega)
    have h1 := hf.2
    have h2 := hg.1
    omega
  · exact h
  · have := corner_boundary_mono hmono hbd (f := g + 1) (g := f) (by omega)
    have h1 := hg.2
    have h2 := hf.1
    omega

/-- In a mesh with a face, strictly increasing face starts from 0 bounded by the corner
count, every corner lies in some face. -/
theorem exists_inFace {m : simple_mesh_base Mat} (hpos : 0 < get_nr_faces m)
    (hinc : FaceStartsIncreasing m) (h0 : begin_corner m 0 = some 0)
    (hbd : FaceStartsBounded m) {c : Nat} (hc : c < get_nr_corners m) :
    ∃ f, f < get_nr_faces m ∧ InFace m f c := by
  have hnr := nr_faces_eq_length hinc hbd hpos
  have hlen0 : 0 < m.faces.length := (lt_nr_faces hpos).1
  have hf0 : m.faces[0] = 0 := (begin_corner_eq_some hlen0 h0).symm
  obtain ⟨f, hf, hle, hnext⟩ :=
    exists_last_face_start_le c (m.faces.length - 1) 0 hlen0 (by omega) (by omega)
  refine ⟨f, by omega, ?_, ?_⟩
  · rw [corner_boundary_of_lt hf]; exact hle
  · by_cases hl : f + 1 < m.faces.length
    · rw [corner_boundary_of_lt hl]; exact hnext hl
    · rw [corner_boundary_of_ge (by omega)]; exact hc

/-- Invariant rule for a loop over a list in the `Option` monad: an invariant indexed by
the number of elements processed, kept by every step that does not fail, holds at the
end, and the loop does not fail. -/
theorem foldlM_option_invariant {S A : Type} (step : S → A → Option S) :
    ∀ (l : List A) (Inv : Nat → S → Prop) (s0 : S), Inv 0 s0 →
      (∀ (k : Nat) (hk : k < l.length) (s : S), Inv k s →
        ∃ s1, step s l[k] = some s1 ∧ Inv (k + 1) s1) →
      ∃ s, l.foldlM step s0 = some s ∧ Inv l.length s := by
  intro l
  induction l with
  | nil =>
    intro Inv s0 h0 _
    exact ⟨s0, rfl, h0⟩
  | cons a t ih =>
    intro Inv s0 h0 hstep
    obtain ⟨s1, hs1, hI⟩ := hstep 0 (Nat.succ_pos _) s0 h0
    obtain ⟨s, hs, hfin⟩ := ih (fun k => Inv (k + 1)) s1 hI
      (fun k hk s hs => hstep (k + 1) (Nat.succ_lt_succ hk) s hs)
    refine ⟨s, ?_, hfin⟩
    rw [List.foldlM_cons]
    have hs1b : step s0 a = some s1 := hs1
    rw [hs1b]
    exact hs

/-- The stamping loop of one face writes `fi` to the corners of `[b, e)` and nothing else. -/
theorem stamp_face_spec (c2f : List Nat) (fi b e : Nat) (he : b < e → e ≤ c2f.length) :
    ∃ r, stamp_face c2f fi b e = some r ∧ r.length = c2f.length ∧
      ∀ c, r[c]? = if b ≤ c ∧ c < e ∧ c < c2f.length then some fi else c2f[c]? := by
  have h := foldlM_option_invariant
    (fun (c : List Nat) (ci : Nat) => if ci < c.length then some (c.set ci fi) else none)
    (List.range' b (e - b))
    (fun k s => s.length = c2f.length ∧
      ∀ c, s[c]? = if b ≤ c ∧ c < b + k ∧ c < c2f.length then some fi else c2f[c]?)
    c2f ⟨rfl, fun c => by
      rw [if_neg]
      omega⟩
    (by
      intro k hk s ⟨hlen, hs⟩
      rw [List.length_range'] at hk
      have hci : (List.range' b (e - b))[k] = b + k := by simp
      rw [hci]
      have hlt : b + k < s.length := by
        have := he (by omega)
        omega
      refine ⟨s.set (b + k) fi, if_pos hlt, by simpa using hlen, ?_⟩
      intro c
      rw [List.getElem?_set]
      by_cases hc : b + k = c
      · subst hc
        rw [if_pos rfl, if_pos hlt, if_pos ⟨by omega, by omega, by omega⟩]
      · rw [if_neg hc, hs c]
        by_cases h1 : b ≤ c ∧ c < b + k ∧ c < c2f.length
        · rw [if_pos h1, if_pos ⟨h1.1, by omega, h1.2.2⟩]
        · rw [if_neg h1, if_neg (by omega)])
  obtain ⟨r, hr, hlen, hspec⟩ := h
  rw [List.length_range'] at hspec
  refine ⟨r, hr, hlen, ?_⟩
  intro c
  rw [hspec c]
  by_cases h1 : b ≤ c ∧ c < e ∧ c < c2f.length
  · rw [if_pos h1, if_pos ⟨h1.1, by omega, h1.2.2⟩]
  · rw [if_neg h1, if_neg (by omega)]

/-- What `compute_c2f` computes on a mesh with non-decreasing, bounded face starts: a
vector with one entry per corner where the corners of each face hold the face index and
the corners of no face hold the fill value. -/
theorem compute_c2f_spec {m : simple_mesh_base Mat} (hmono : FaceStartsNondecreasing m)
    (hbd : FaceStartsBounded m) (fill : Nat) :
    ∃ r, compute_c2f m fill = some r ∧ r.length = get_nr_corners m ∧
      ∀ c, c < get_nr_corners m →
        (∀ f, f < get_nr_faces m → InFace m f c → r[c]? = some f) ∧
        ((∀ f, f < get_nr_faces m → ¬ InFace m f c) → r[c]? = some fill) := by
  have h := foldlM_option_invariant
    (fun (c2f : List Nat) (fi : Nat) =>
      match begin_corner m fi, end_corner m fi with
      | some b, some e => stamp_face c2f fi b e
      | _, _ => none)
    (List.range (get_nr_faces m))
    (fun k s => s.length = get_nr_corners m ∧
      ∀ c, c < get_nr_corners m →
        (∀ f, f < k → InFace m f c → s[c]? = some f) ∧
        ((∀ f, f < k → ¬ InFace m f c) → s[c]? = some fill))
    (List.replicate (get_nr_corners m) fill)
    ⟨List.length_replicate _ _, fun c hc =>
      ⟨fun f hf => absurd hf (Nat.not_lt_zero f),
       fun _ => List.getElem?_replicate_of_lt hc⟩⟩
    (by
      intro k hk s ⟨hlen, hs⟩
      rw [List.length_range] at hk
      have hki : (List.range (get_nr_faces m))[k] = k := by simp
      rw [hki]
      obtain ⟨hklen, hk32⟩ := lt_nr_faces hk
      beta_reduce
      rw [begin_corner_boundary hklen, end_corner_boundary hklen hk32]
      obtain ⟨r, hr, hrlen, hrspec⟩ := stamp_face_spec s k (corner_boundary m k)
        (corner_boundary m (k + 1))
        (fun _ => by rw [hlen]; exact corner_boundary_le_nr_corners hbd _)
      refine ⟨r, hr, by omega, ?_⟩
      intro c hc
      rw [hrspec c]
      by_cases hin : InFace m k c
      · rw [if_pos ⟨hin.1, hin.2, by omega⟩]
        refine ⟨fun f _ hf => ?_, fun hno => absurd hin (hno k (Nat.lt_succ_self k))⟩
        rw [inFace_unique hmono hbd hf hin]
      · rw [if_neg (fun h => hin ⟨h.1, h.2.1⟩)]
        refine ⟨fun f hfk hf => ?_, fun hno => ?_⟩
        · have hne : f ≠ k := fun h => hin (h ▸ hf)
          exact (hs c hc).1 f (by omega) hf
        · exact (hs c hc).2 (fun f hfk => hno f (by omega)))
  obtain ⟨r, hr, hlen, hspec⟩ := h
  rw [List.length_range] at hspec
  exact ⟨r, hr, hlen, hspec⟩

/-- The model of `compute_c2f` on the triangle-plus-quadrilateral mesh. -/
theorem compute_c2f_tri_quad : compute_c2f mesh_tri_quad 9 = some [0, 0, 0, 1, 1, 1, 1] := by
  decide

theorem reverse_range_length (l : List Nat) (b e : Nat) (hbe : b ≤ e) (he : e ≤ l.length) :
    (reverse_range l b e).length = l.length := by
  unfold reverse_range
  simp only [List.length_append, List.length_take, List.length_reverse, List.length_drop]
  omega

/-- Entry `c` of a vector whose corners `[b, e)` were reversed. -/
theorem reverse_range_getElem? (l : List Nat) (b e : Nat) (hbe : b ≤ e) (he : e ≤ l.length)
    (c : Nat) :
    (reverse_range l b e)[c]? = if b ≤ c ∧ c < e then l[b + e - 1 - c]? else l[c]? := by
  unfold reverse_range
  have hA : (l.take b).length = b := by rw [List.length_take]; omega
  have hB : (((l.drop b).take (e - b)).reverse).length = e - b := by
    rw [List.length_reverse, List.length_take, List.length_drop]; omega
  by_cases h1 : c < b
  · rw [if_neg (by omega), List.append_assoc, List.getElem?_append_left (by omega),
      List.getElem?_take]
    rw [if_pos h1]
  · by_cases h2 : c < e
    · rw [if_pos ⟨by omega, h2⟩, List.append_assoc, List.getElem?_append_right (by omega),
        List.getElem?_append_left (by omega), hA,
        List.getElem?_reverse (by rw [List.length_take, List.length_drop]; omega),
        List.getElem?_take, List.length_take, List.length_drop, List.getElem?_drop]
      rw [if_pos (by omega)]
      congr 1
      omega
    · rw [if_neg (by omega), List.getElem?_append_right (by rw [List.length_append]; omega),
        List.length_append, hA, hB, List.getElem?_drop]
      congr 1
      omega

theorem mirroredWithin_zero (m : simple_mesh_base Mat) (l0 : List Nat) :
    MirroredWithin m 0 l0 l0 :=
  ⟨rfl, fun _ => ⟨fun f hf => absurd hf (Nat.not_lt_zero f), fun _ => rfl⟩⟩

/-- A face without corners adds nothing to the faces already reversed. -/
theorem mirroredWithin_succ_of_empty {m : simple_mesh_base Mat} {k : Nat} {l0 l : List Nat}
    (hempty : corner_boundary m (k + 1) ≤ corner_boundary m k)
    (h : MirroredWithin m k l0 l) : MirroredWithin m (k + 1) l0 l := by
  have hno : ∀ c, ¬ InFace m k c := fun c hc => by
    have h1 := hc.1
    have h2 := hc.2
    omega
  refine ⟨h.1, fun c => ⟨fun f hf hin => ?_, fun hnone => ?_⟩⟩
  · have hne : f ≠ k := fun hfk => hno c (hfk ▸ hin)
    exact (h.2 c).1 f (by omega) hin
  · exact (h.2 c).2 (fun f hf => hnone f (by omega))

/-- Reversing the corners of face `k` extends the mirrored faces by face `k`. -/
theorem mirroredWithin_succ {m : simple_mesh_base Mat} (hmono : FaceStartsNondecreasing m)
    (hbd : FaceStartsBounded m) {k : Nat} {l0 l : List Nat}
    (hlt : corner_boundary m k < corner_boundary m (k + 1))
    (hle : corner_boundary m (k + 1) ≤ l0.length)
    (h : MirroredWithin m k l0 l) :
    MirroredWithin m (k + 1) l0
      (reverse_range l (corner_boundary m k) (corner_boundary m (k + 1))) := by
  obtain ⟨hlen, hpt⟩ := h
  have hle2 : corner_boundary m (k + 1) ≤ l.length := by omega
  refine ⟨by rw [reverse_range_length l _ _ (Nat.le_of_lt hlt) hle2]; exact hlen, ?_⟩
  intro c
  rw [reverse_range_getElem? l _ _ (Nat.le_of_lt hlt) hle2 c]
  by_cases hin : InFace m k c
  · rw [if_pos ⟨hin.1, hin.2⟩]
    have hmir : InFace m k (corner_boundary m k + corner_boundary m (k + 1) - 1 - c) := by
      have h1 := hin.1
      have h2 := hin.2
      exact ⟨by omega, by omega⟩
    have hfresh := (hpt (corner_boundary m k + corner_boundary m (k + 1) - 1 - c)).2
      (fun f hf hfin => by
        have := inFace_unique hmono hbd hfin hmir
        omega)
    refine ⟨fun f _ hfin => ?_, fun hnone => absurd hin (hnone k (Nat.lt_succ_self k))⟩
    rw [inFace_unique hmono hbd hfin hin]
    exact hfresh
  · rw [if_neg (fun h => hin ⟨h.1, h.2⟩)]
    refine ⟨fun f hf hfin => ?_, fun hnone => ?_⟩
    · have hne : f ≠ k := fun hfk => hin (hfk ▸ hfin)
      exact (hpt c).1 f (by omega) hfin
    · exact (hpt c).2 (fun f hf => hnone f (by omega))

/-- Mirroring twice inside the same faces gives the vector back. -/
theorem mirroredWithin_twice {m : simple_mesh_base Mat} {k : Nat} {l0 l1 l2 : List Nat}
    (h1 : MirroredWithin m k l0 l1) (h2 : MirroredWithin m k l1 l2) : l2 = l0 := by
  apply List.ext_getElem?
  intro c
  by_cases hex : ∃ f, f < k ∧ InFace m f c
  · obtain ⟨f, hf, hin⟩ := hex
    have hb := hin.1
    have he := hin.2
    have hmir : InFace m f (corner_boundary m f + corner_boundary m (f + 1) - 1 - c) :=
      ⟨by omega, by omega⟩
    rw [(h2.2 c).1 f hf hin, (h1.2 _).1 f hf hmir]
    congr 1
    omega
  · have hnone : ∀ f, f < k → ¬ InFace m f c := fun f hf hin => hex ⟨f, hf, hin⟩
    rw [(h2.2 c).2 hnone, (h1.2 c).2 hnone]

theorem pairedMirrored_zero (m : simple_mesh_base Mat) (n : Nat) (l0 : List Nat) :
    PairedMirrored m n 0 l0 l0 :=
  ⟨fun _ => mirroredWithin_zero m l0, fun _ => rfl⟩

theorem pairedMirrored_succ_of_empty {m : simple_mesh_base Mat} {n k : Nat} {l0 l : List Nat}
    (hempty : corner_boundary m (k + 1) ≤ corner_boundary m k)
    (h : PairedMirrored m n k l0 l) : PairedMirrored m n (k + 1) l0 l :=
  ⟨fun hp => mirroredWithin_succ_of_empty hempty (h.1 hp), h.2⟩

theorem pairedMirrored_succ {m : simple_mesh_base Mat} (hmono : FaceStartsNondecreasing m)
    (hbd : FaceStartsBounded m) {n k : Nat} {l0 l : List Nat}
    (hlt : corner_boundary m k < corner_boundary m (k + 1))
    (hle : corner_boundary m (k + 1) ≤ n)
    (h : PairedMirrored m n k l0 l) :
    PairedMirrored m n (k + 1) l0
      (reverse_paired n l (corner_boundary m k) (corner_boundary m (k + 1))) := by
  constructor
  · intro hp
    have hm := h.1 hp
    have hl : l.length = n := by rw [hm.1]; exact hp
    unfold reverse_paired
    rw [if_pos hl]
    exact mirroredWithin_succ hmono hbd hlt (by omega) hm
  · intro hp
    have hl := h.2 hp
    subst hl
    unfold reverse_paired
    rw [if_neg hp]

theorem corner_boundary_with_indices (m : simple_mesh_base Mat) (p n t : List Nat)
    (hp : p.length = m.position_indices.length) (k : Nat) :
    corner_boundary (with_indices m p n t) k = corner_boundary m k := by
  unfold corner_boundary get_nr_corners with_indices
  simp only [hp]

theorem end_corner_with_indices (m : simple_mesh_base Mat) (p n t : List Nat)
    (hp : p.length = m.position_indices.length) (k : Nat) :
    end_corner (with_indices m p n t) k = end_corner m k := by
  unfold end_corner with_indices
  simp only [hp]

theorem idx_of_size_le (n : Nat) : idx_of_size n ≤ n := by
  unfold idx_of_size
  exact Nat.mod_le _ _

/-- What `revert_face_orientation` computes on a mesh with non-decreasing, bounded face
starts: the same mesh with the three corner index vectors mirrored inside every face. -/
theorem revert_face_orientation_spec {m : simple_mesh_base Mat}
    (hmono : FaceStartsNondecreasing m) (hbd : FaceStartsBounded m) :
    ∃ p n t,
      revert_face_orientation m = some (with_indices m p n t) ∧
      MirroredWithin m (get_nr_faces m) m.position_indices p ∧
      PairedMirrored m m.position_indices.length (get_nr_faces m) m.normal_indices n ∧
      PairedMirrored m m.position_indices.length (get_nr_faces m) m.tex_coord_indices t := by
  have h := foldlM_option_invariant (@revert_face Mat)
    (List.range (get_nr_faces m))
    (fun k s => ∃ p n t,
      s = with_indices m p n t ∧
      MirroredWithin m k m.position_indices p ∧
      PairedMirrored m m.position_indices.length k m.normal_indices n ∧
      PairedMirrored m m.position_indices.length k m.tex_coord_indices t)
    m
    ⟨m.position_indices, m.normal_indices, m.tex_coord_indices, rfl,
      mirroredWithin_zero m _, pairedMirrored_zero m _ _, pairedMirrored_zero m _ _⟩
    (by
      intro k hk s ⟨p, n, t, hs, hp, hn, ht⟩
      rw [List.length_range] at hk
      have hki : (List.range (get_nr_faces m))[k] = k := by simp
      rw [hki]
      obtain ⟨hklen, hk32⟩ := lt_nr_faces hk
      have hplen : p.length = m.position_indices.length := hp.1
      have hb : begin_corner s k = some (corner_boundary m k) := by
        rw [hs]
        exact begin_corner_boundary hklen
      have he : end_corner s k = some (corner_boundary m (k + 1)) := by
        rw [hs, end_corner_with_indices m p n t hplen]
        exact end_corner_boundary hklen hk32
      have hsp : s.position_indices = p := by rw [hs]; rfl
      have hsn : s.normal_indices = n := by rw [hs]; rfl
      have hst : s.tex_coord_indices = t := by rw [hs]; rfl
      unfold revert_face
      rw [hb, he]
      beta_reduce
      by_cases hempty : corner_boundary m (k + 1) ≤ corner_boundary m k
      · refine ⟨s, ?_, p, n, t, hs, mirroredWithin_succ_of_empty hempty hp,
          pairedMirrored_succ_of_empty hempty hn, pairedMirrored_succ_of_empty hempty ht⟩
        simp only [if_pos hempty]
      · have hlt : corner_boundary m k < corner_boundary m (k + 1) := by omega
        have hle : corner_boundary m (k + 1) ≤ m.position_indices.length :=
          le_trans (corner_boundary_le_nr_corners hbd _) (idx_of_size_le _)
        refine ⟨_, ?_, _, _, _, rfl, mirroredWithin_succ hmono hbd hlt hle hp,
          pairedMirrored_succ hmono hbd hlt hle hn, pairedMirrored_succ hmono hbd hlt hle ht⟩
        simp only [if_neg hempty, hsp, hsn, hst, hplen, if_pos hle]
        rw [hs]
        rfl)
  obtain ⟨s, hs, p, n, t, hst, hp, hn, ht⟩ := h
  rw [List.length_range] at hp hn ht
  exact ⟨p, n, t, by rw [← hst]; exact hs, hp, hn, ht⟩

theorem mirroredWithin_congr {m1 m : simple_mesh_base Mat}
    (hcb : ∀ k, corner_boundary m1 k = corner_boundary m k) {k : Nat} {l0 l : List Nat}
    (h : MirroredWithin m1 k l0 l) : MirroredWithin m k l0 l := by
  unfold MirroredWithin InFace at *
  simp only [hcb] at h
  exact h

theorem pairedMirrored_twice {m1 m : simple_mesh_base Mat}
    (hcb : ∀ k, corner_boundary m1 k = corner_boundary m k) {n k : Nat} {l0 l1 l2 : List Nat}
    (h1 : PairedMirrored m n k l0 l1) (h2 : PairedMirrored m1 n k l1 l2) : l2 = l0 := by
  by_cases hp : l0.length = n
  · have hm1 := h1.1 hp
    have hl1 : l1.length = n := by rw [hm1.1]; exact hp
    exact mirroredWithin_twice hm1 (mirroredWithin_congr hcb (h2.1 hl1))
  · have hl1 := h1.2 hp
    subst hl1
    exact h2.2 hp

/-- The model of `revert_face_orientation` on the triangle-plus-quadrilateral mesh with
paired normal indices: corners and normal indices are reversed face by face. -/
theorem revert_face_orientation_tri_quad :
    (revert_face_orientation mesh_tri_quad_normals).map
        (fun m => (m.position_indices, m.normal_indices, m.tex_coord_indices, m.faces))
      = some ([2, 1, 0, 4, 3, 1, 2], [7, 6, 5, 11, 10, 9, 8], [], [0, 3]) := by
  decide

/-- The model of `extract_triangle_element_buffer` on the triangle-plus-quadrilateral
mesh with one unique vertex per corner: one triangle, then the two triangles of the fan
of the quadrilateral. -/
theorem extract_triangle_element_buffer_tri_quad :
    extract_triangle_element_buffer mesh_tri_quad [10, 11, 12, 13, 14, 15, 16] none
      = some [10, 11, 12, 13, 14, 15, 13, 15, 16] := by
  decide

/-! ## Loops that can throw, `compute_texcoordi` and `pick_face` -/

variable {F V3 V2 C : Type}

/-- Case rule for a loop over a list in the `Except` monad: when every step taken from a
state that satisfies the invariant either succeeds and keeps the invariant or fails with
an error in `Q`, the loop either succeeds with the invariant or fails with an error in
`Q`. -/
theorem foldlM_except_cases {S A E : Type} (step : S → A → Except E S) (Q : E → Prop) :
    ∀ (l : List A) (Inv : Nat → S → Prop) (s0 : S), Inv 0 s0 →
      (∀ (k : Nat) (hk : k < l.length) (s : S), Inv k s →
        (∃ s1, step s l[k] = Except.ok s1 ∧ Inv (k + 1) s1) ∨
        (∃ e, step s l[k] = Except.error e ∧ Q e)) →
      (∃ s, l.foldlM step s0 = Except.ok s ∧ Inv l.length s) ∨
      (∃ e, l.foldlM step s0 = Except.error e ∧ Q e) := by
  intro l
  induction l with
  | nil =>
    intro Inv s0 h0 _
    exact Or.inl ⟨s0, rfl, h0⟩
  | cons a t ih =>
    intro Inv s0 h0 hstep
    rw [List.foldlM_cons]
    rcases hstep 0 (Nat.succ_pos _) s0 h0 with ⟨s1, hs1, hI⟩ | ⟨e, he, hQ⟩
    · have hs1b : step s0 a = Except.ok s1 := hs1
      rw [hs1b]
      exact ih (fun k => Inv (k + 1)) s1 hI
        (fun k hk s hs => hstep (k + 1) (Nat.succ_lt_succ hk) s hs)
    · have heb : step s0 a = Except.error e := he
      rw [heb]
      exact Or.inr ⟨e, rfl, hQ⟩

/-- Case rule for `for_int`: with an invariant kept by every body that returns and every
throw of a body in `Q`, the loop returns with the invariant after `n ≤ INT_MAX` rounds,
or ends with a throw in `Q`, or is undefined because the body of round `INT_MAX`
returned. -/
theorem for_int_cases {S : Type} (n : Nat) (body : S → Nat → Except (failure S) S)
    (Inv : Nat → S → Prop) (Q : failure S → Prop) (s0 : S) (h0 : Inv 0 s0)
    (hstep : ∀ (i : Nat) (s : S), i < n → i ≤ 2147483647 → Inv i s →
      (∃ s1, body s i = Except.ok s1 ∧ Inv (i + 1) s1) ∨
      (∃ e, body s i = Except.error e ∧ Q e)) :
    (∃ s, for_int n body s0 = Except.ok s ∧ Inv n s ∧ n ≤ 2147483647) ∨
    (∃ e, for_int n body s0 = Except.error e ∧
      (Q e ∨ (e = failure.undefined ∧ 2147483647 < n ∧
        ∃ s s1, Inv 2147483647 s ∧ body s 2147483647 = Except.ok s1))) := by
  have h := foldlM_except_cases
    (fun (s : S) (i : Nat) =>
      match body s i with
      | Except.ok s1 => if i = 2147483647 then Except.error failure.undefined else Except.ok s1
      | Except.error e => Except.error e)
    (fun e => Q e ∨ (e = failure.undefined ∧ 2147483647 < n ∧
        ∃ s s1, Inv 2147483647 s ∧ body s 2147483647 = Except.ok s1))
    (List.range n) (fun k s => Inv k s ∧ k ≤ 2147483647) s0 ⟨h0, by omega⟩
    (by
      intro k hk s ⟨hI, hk2⟩
      rw [List.length_range] at hk
      have hki : (List.range n)[k] = k := by simp
      rw [hki]
      beta_reduce
      rcases hstep k s hk hk2 hI with ⟨s1, hs1, hI1⟩ | ⟨e, he, hQ⟩
      · rw [hs1]
        by_cases hmax : k = 2147483647
        · right
          subst hmax
          exact ⟨failure.undefined, by simp, Or.inr ⟨rfl, by omega, s, s1, hI, hs1⟩⟩
        · left
          exact ⟨s1, by simp [hmax], hI1, by omega⟩
      · rw [he]
        right
        exact ⟨e, rfl, Or.inl hQ⟩)
  rw [List.length_range] at h
  rcases h with ⟨s, hs, hI, hn⟩ | ⟨e, he, hQ⟩
  · exact Or.inl ⟨s, hs, hI, hn⟩
  · exact Or.inr ⟨e, he, hQ⟩

/-- A loop whose bodies all return, with at most `INT_MAX` rounds, returns. -/
theorem for_int_ok {S : Type} (n : Nat) (body : S → Nat → Except (failure S) S)
    (Inv : Nat → S → Prop) (s0 : S) (hn : n ≤ 2147483647) (h0 : Inv 0 s0)
    (hstep : ∀ (i : Nat) (s : S), i < n → Inv i s →
      ∃ s1, body s i = Except.ok s1 ∧ Inv (i + 1) s1) :
    ∃ s, for_int n body s0 = Except.ok s ∧ Inv n s := by
  rcases for_int_cases n body Inv (fun _ => False) s0 h0
    (fun i s hi _ hI => Or.inl (hstep i s hi hI)) with ⟨s, hs, hI, _⟩ | ⟨e, _, hQ⟩
  · exact ⟨s, hs, hI⟩
  · rcases hQ with hF | ⟨_, hlt, _⟩
    · exact absurd hF id
    · omega

/-- A loop whose bodies return before round `k` and whose body throws in round `k`, with
`k ≤ INT_MAX`, ends with that throw. -/
theorem for_int_raise {S : Type} (n k : Nat) (body : S → Nat → Except (failure S) S)
    (Inv : Nat → S → Prop) (Q : failure S → Prop) (s0 : S) (hk : k < n)
    (hmax : k ≤ 2147483647) (h0 : Inv 0 s0)
    (hstep : ∀ (i : Nat) (s : S), i < k → Inv i s →
      ∃ s1, body s i = Except.ok s1 ∧ Inv (i + 1) s1)
    (hthrow : ∀ s, Inv k s → ∃ e, body s k = Except.error e ∧ Q e) :
    ∃ e, for_int n body s0 = Except.error e ∧ Q e := by
  rcases for_int_cases n body (fun i s => i ≤ k ∧ Inv i s) Q s0 ⟨by omega, h0⟩
    (fun i s hi _ hI => by
      rcases Nat.lt_or_ge i k with hlt | hge
      · obtain ⟨s1, hs1, hI1⟩ := hstep i s hlt hI.2
        exact Or.inl ⟨s1, hs1, by omega, hI1⟩
      · have hik : i = k := by have := hI.1; omega
        subst hik
        exact Or.inr (hthrow s hI.2))
    with ⟨s, _, hI, _⟩ | ⟨e, he, hQ⟩
  · have := hI.1
    omega
  · rcases hQ with hQ | ⟨_, _, s, s1, hI, hs1⟩
    · exact ⟨e, he, hQ⟩
    · have hik : k = 2147483647 := by have := hI.1; omega
      subst hik
      obtain ⟨e2, he2, _⟩ := hthrow s hI.2
      rw [he2] at hs1
      exact absurd hs1 (by simp)

/-- A loop with more than `INT_MAX` rounds whose bodies return up to round `INT_MAX` is
undefined. -/
theorem for_int_undefined {S : Type} (n : Nat) (body : S → Nat → Except (failure S) S)
    (Inv : Nat → S → Prop) (s0 : S) (hn : 2147483647 < n) (h0 : Inv 0 s0)
    (hstep : ∀ (i : Nat) (s : S), i ≤ 2147483647 → Inv i s →
      ∃ s1, body s i = Except.ok s1 ∧ Inv (i + 1) s1) :
    for_int n body s0 = Except.error failure.undefined := by
  rcases for_int_cases n body Inv (fun _ => False) s0 h0
    (fun i s _ hi hI => Or.inl (hstep i s hi hI)) with ⟨s, _, _, hle⟩ | ⟨e, he, hQ⟩
  · omega
  · rcases hQ with hF | ⟨hu, _, _⟩
    · exact absurd hF id
    · rw [he, hu]

/-- Two loops with the same number of rounds whose bodies agree in every round agree. -/
theorem for_int_congr {S : Type} (n : Nat) (body1 body2 : S → Nat → Except (failure S) S)
    (h : ∀ (i : Nat) (s : S), i < n → body1 s i = body2 s i) (s0 : S) :
    for_int n body1 s0 = for_int n body2 s0 := by
  unfold for_int
  have hl : ∀ (l : List Nat) (s : S), (∀ i ∈ l, i < n) →
      l.foldlM
        (fun s i =>
          match body1 s i with
          | Except.ok s1 =>
            if i = 2147483647 then Except.error failure.undefined else Except.ok s1
          | Except.error e => Except.error e) s
      = l.foldlM
        (fun s i =>
          match body2 s i with
          | Except.ok s1 =>
            if i = 2147483647 then Except.error failure.undefined else Except.ok s1
          | Except.error e => Except.error e) s := by
    intro l
    induction l with
    | nil => intro s _; rfl
    | cons a t ih =>
      intro s hmem
      rw [List.foldlM_cons, List.foldlM_cons, h a s (hmem a (List.mem_cons_self a t))]
      congr 1
      funext s1
      exact ih s1 (fun i hi => hmem i (List.mem_cons_of_mem a hi))
  exact hl (List.range n) s0 (fun i hi => List.mem_range.1 hi)

theorem texcoordi_position_step_ok (K : texcoord_kernel F V3 V2) (rx ry rz : F) (ci : V3)
    (m : simple_mesh V3 V2 Mat) (tcs : List V2) (i : Nat)
    (hp : i < m.positions.length) (hn : i < m.normals.length) :
    ∃ x, simple_mesh.texcoordi_position_step K rx ry rz ci (simple_mesh.with_tex m tcs []) i
      = Except.ok (simple_mesh.with_tex m (tcs ++ [x]) []) := by
  have h1 : (simple_mesh.with_tex m tcs []).positions[i]? = some m.positions[i] :=
    List.getElem?_eq_getElem hp
  have h2 : (simple_mesh.with_tex m tcs []).normals[i]? = some m.normals[i] :=
    List.getElem?_eq_getElem hn
  unfold simple_mesh.texcoordi_position_step vector_at
  rw [h1, h2]
  by_cases hr : K.rejected (K.pdir rx ry rz ci m.positions[i]) m.normals[i] = true
  · exact ⟨K.rejected_tc, by simp [hr, bind, Except.bind, pure, Except.pure, simple_mesh.with_tex]⟩
  · exact ⟨K.uv (K.pdir rx ry rz ci m.positions[i]),
      by simp [hr, bind, Except.bind, pure, Except.pure, simple_mesh.with_tex]⟩

theorem texcoordi_position_step_raise (K : texcoord_kernel F V3 V2) (rx ry rz : F) (ci : V3)
    (s : simple_mesh V3 V2 Mat) (i : Nat)
    (hp : i < s.positions.length) (hn : s.normals.length ≤ i) :
    simple_mesh.texcoordi_position_step K rx ry rz ci s i
      = Except.error (failure.out_of_range s) := by
  have h1 : s.positions[i]? = some s.positions[i] := List.getElem?_eq_getElem hp
  have h2 : s.normals[i]? = none := List.getElem?_eq_none hn
  unfold simple_mesh.texcoordi_position_step vector_at
  rw [h1, h2]
  rfl

theorem texcoordi_corner_step_ok (m : simple_mesh V3 V2 Mat) (tcs : List V2) (i : Nat)
    (hi : i < m.position_indices.length) :
    simple_mesh.texcoordi_corner_step (simple_mesh.with_tex m tcs (m.position_indices.take i)) i
      = Except.ok (simple_mesh.with_tex m tcs (m.position_indices.take (i + 1))) := by
  have h1 : (simple_mesh.with_tex m tcs (m.position_indices.take i)).position_indices[i]?
      = some m.position_indices[i] := List.getElem?_eq_getElem hi
  unfold simple_mesh.texcoordi_corner_step vector_at
  rw [h1]
  have h2 : m.position_indices.take (i + 1) = m.position_indices.take i ++ [m.position_indices[i]] := by
    rw [List.take_succ, List.getElem?_eq_getElem hi]
    rfl
  rw [h2]
  rfl

theorem get_nr_normals_of_length {m : simple_mesh V3 V2 Mat} {n : Nat}
    (h : m.normals.length = n) : simple_mesh.get_nr_normals m = n % 4294967296 := by
  unfold simple_mesh.get_nr_normals idx_of_size
  rw [h]

theorem get_nr_positions_le (m : simple_mesh V3 V2 Mat) :
    simple_mesh.get_nr_positions m ≤ m.positions.length := by
  unfold simple_mesh.get_nr_positions
  exact idx_of_size_le _

/-- The first loop of `compute_texcoordi` returns when every position below
`get_nr_positions()` has a normal and the count does not exceed `INT_MAX`: one texture
coordinate has been pushed per position. -/
theorem texcoordi_first_loop_ok (K : texcoord_kernel F V3 V2) (rx ry rz : F) (ci : V3)
    (m : simple_mesh V3 V2 Mat)
    (h1 : simple_mesh.get_nr_positions m ≤ m.normals.length)
    (h2 : simple_mesh.get_nr_positions m ≤ 2147483647) :
    ∃ tcs, for_int (simple_mesh.get_nr_positions m)
        (simple_mesh.texcoordi_position_step K rx ry rz ci) (simple_mesh.with_tex m [] [])
      = Except.ok (simple_mesh.with_tex m tcs []) ∧
      tcs.length = simple_mesh.get_nr_positions m := by
  have hp := get_nr_positions_le m
  obtain ⟨s, hs, tcs, hst, hlen⟩ := for_int_ok (simple_mesh.get_nr_positions m)
    (simple_mesh.texcoordi_position_step K rx ry rz ci)
    (fun i s => ∃ tcs, s = simple_mesh.with_tex m tcs [] ∧ tcs.length = i)
    (simple_mesh.with_tex m [] []) h2 ⟨[], rfl, rfl⟩
    (by
      rintro i s hi ⟨tcs, rfl, hlen⟩
      obtain ⟨x, hx⟩ := texcoordi_position_step_ok K rx ry rz ci m tcs i (by omega) (by omega)
      exact ⟨_, hx, tcs ++ [x], rfl, by simp [hlen]⟩)
  exact ⟨tcs, by rw [hs, hst], hlen⟩

/-- The first loop of `compute_texcoordi` throws at the first position without a normal,
when there is one below `get_nr_positions()` and it is at most `INT_MAX`: one texture
coordinate has been pushed for each position before it. -/
theorem texcoordi_first_loop_raise (K : texcoord_kernel F V3 V2) (rx ry rz : F) (ci : V3)
    (m : simple_mesh V3 V2 Mat)
    (h1 : m.normals.length < simple_mesh.get_nr_positions m)
    (h2 : m.normals.length ≤ 2147483647) :
    ∃ tcs, for_int (simple_mesh.get_nr_positions m)
        (simple_mesh.texcoordi_position_step K rx ry rz ci) (simple_mesh.with_tex m [] [])
      = Except.error (failure.out_of_range (simple_mesh.with_tex m tcs [])) ∧
      tcs.length = m.normals.length := by
  have hp := get_nr_positions_le m
  obtain ⟨e, he, tcs, hst, hlen⟩ := for_int_raise (simple_mesh.get_nr_positions m)
    m.normals.length (simple_mesh.texcoordi_position_step K rx ry rz ci)
    (fun i s => ∃ tcs, s = simple_mesh.with_tex m tcs [] ∧ tcs.length = i)
    (fun e => ∃ tcs, e = failure.out_of_range (simple_mesh.with_tex m tcs []) ∧
      tcs.length = m.normals.length)
    (simple_mesh.with_tex m [] []) h1 h2 ⟨[], rfl, rfl⟩
    (by
      rintro i s hi ⟨tcs, rfl, hlen⟩
      obtain ⟨x, hx⟩ := texcoordi_position_step_ok K rx ry rz ci m tcs i (by omega) (by omega)
      exact ⟨_, hx, tcs ++ [x], rfl, by simp [hlen]⟩)
    (by
      rintro s ⟨tcs, rfl, hlen⟩
      exact ⟨_, texcoordi_position_step_raise K rx ry rz ci _ _
        (show m.normals.length < m.positions.length by omega) (le_refl _), tcs, rfl, hlen⟩)
  exact ⟨tcs, by rw [he, hst], hlen⟩

/-- The first loop of `compute_texcoordi` is undefined when more than `INT_MAX` positions
are counted and more than `INT_MAX` of them have a normal. -/
theorem texcoordi_first_loop_undefined (K : texcoord_kernel F V3 V2) (rx ry rz : F) (ci : V3)
    (m : simple_mesh V3 V2 Mat)
    (h1 : 2147483647 < simple_mesh.get_nr_positions m)
    (h2 : 2147483647 < m.normals.length) :
    for_int (simple_mesh.get_nr_positions m)
        (simple_mesh.texcoordi_position_step K rx ry rz ci) (simple_mesh.with_tex m [] [])
      = Except.error failure.undefined := by
  have hp := get_nr_positions_le m
  exact for_int_undefined (simple_mesh.get_nr_positions m)
    (simple_mesh.texcoordi_position_step K rx ry rz ci)
    (fun i s => ∃ tcs, s = simple_mesh.with_tex m tcs [] ∧ tcs.length = i)
    (simple_mesh.with_tex m [] []) h1 ⟨[], rfl, rfl⟩
    (by
      rintro i s hi ⟨tcs, rfl, hlen⟩
      obtain ⟨x, hx⟩ := texcoordi_position_step_ok K rx ry rz ci m tcs i (by omega) (by omega)
      exact ⟨_, hx, tcs ++ [x], rfl, by simp [hlen]⟩)

/-- The second loop of `compute_texcoordi` returns when the corner count does not exceed
`INT_MAX`: the texture-coordinate indices are the position indices of the corners. -/
theorem texcoordi_second_loop_ok (m : simple_mesh V3 V2 Mat) (tcs : List V2)
    (h : get_nr_corners m.tosimple_mesh_base ≤ 2147483647) :
    for_int (get_nr_corners m.tosimple_mesh_base) simple_mesh.texcoordi_corner_step
        (simple_mesh.with_tex m tcs [])
      = Except.ok (simple_mesh.with_tex m tcs
          (m.position_indices.take (get_nr_corners m.tosimple_mesh_base))) := by
  have hc : get_nr_corners m.tosimple_mesh_base ≤ m.position_indices.length :=
    idx_of_size_le _
  obtain ⟨s, hs, hst⟩ := for_int_ok (get_nr_corners m.tosimple_mesh_base)
    simple_mesh.texcoordi_corner_step
    (fun i s => s = simple_mesh.with_tex m tcs (m.position_indices.take i))
    (simple_mesh.with_tex m tcs []) h rfl
    (by
      rintro i s hi rfl
      exact ⟨_, texcoordi_corner_step_ok m tcs i (by omega), rfl⟩)
  rw [hs, hst]

/-- The second loop of `compute_texcoordi` is undefined when the corner count exceeds
`INT_MAX`. -/
theorem texcoordi_second_loop_undefined (m : simple_mesh V3 V2 Mat) (tcs : List V2)
    (h : 2147483647 < get_nr_corners m.tosimple_mesh_base) :
    for_int (get_nr_corners m.tosimple_mesh_base) simple_mesh.texcoordi_corner_step
        (simple_mesh.with_tex m tcs [])
      = Except.error failure.undefined := by
  have hc : get_nr_corners m.tosimple_mesh_base ≤ m.position_indices.length :=
    idx_of_size_le _
  exact for_int_undefined (get_nr_corners m.tosimple_mesh_base)
    simple_mesh.texcoordi_corner_step
    (fun i s => s = simple_mesh.with_tex m tcs (m.position_indices.take i))
    (simple_mesh.with_tex m tcs []) h rfl
    (by
      rintro i s hi rfl
      exact ⟨_, texcoordi_corner_step_ok m tcs i (by omega), rfl⟩)

theorem compute_texcoordi_unfold (K : texcoord_kernel F V3 V2) (rx ry rz : F) (ci : V3)
    (m : simple_mesh V3 V2 Mat) :
    simple_mesh.compute_texcoordi K rx ry rz ci m
      = (for_int (simple_mesh.get_nr_positions m)
          (simple_mesh.texcoordi_position_step K rx ry rz ci)
          (simple_mesh.with_tex m [] [])).bind
        (fun m1 => for_int (get_nr_corners m1.tosimple_mesh_base)
          simple_mesh.texcoordi_corner_step m1) := rfl

/-- The call `compute_texcoordi` returns when every counted position has a normal and
neither count exceeds `INT_MAX`. -/
theorem compute_texcoordi_returns (K : texcoord_kernel F V3 V2) (rx ry rz : F) (ci : V3)
    (m : simple_mesh V3 V2 Mat)
    (h1 : simple_mesh.get_nr_positions m ≤ m.normals.length)
    (h2 : simple_mesh.get_nr_positions m ≤ 2147483647)
    (h3 : get_nr_corners m.tosimple_mesh_base ≤ 2147483647) :
    ∃ tcs, simple_mesh.compute_texcoordi K rx ry rz ci m
      = Except.ok (simple_mesh.with_tex m tcs
          (m.position_indices.take (get_nr_corners m.tosimple_mesh_base))) ∧
      tcs.length = simple_mesh.get_nr_positions m := by
  obtain ⟨tcs, hloop, hlen⟩ := texcoordi_first_loop_ok K rx ry rz ci m h1 h2
  refine ⟨tcs, ?_, hlen⟩
  rw [compute_texcoordi_unfold, hloop]
  exact texcoordi_second_loop_ok m tcs h3

/-- The call `compute_texcoordi` throws when a counted position below `INT_MAX + 1` has
no normal. -/
theorem compute_texcoordi_raises (K : texcoord_kernel F V3 V2) (rx ry rz : F) (ci : V3)
    (m : simple_mesh V3 V2 Mat)
    (h1 : m.normals.length < simple_mesh.get_nr_positions m)
    (h2 : m.normals.length ≤ 2147483647) :
    ∃ tcs, simple_mesh.compute_texcoordi K rx ry rz ci m
      = Except.error (failure.out_of_range (simple_mesh.with_tex m tcs [])) ∧
      tcs.length = m.normals.length := by
  obtain ⟨tcs, hloop, hlen⟩ := texcoordi_first_loop_raise K rx ry rz ci m h1 h2
  refine ⟨tcs, ?_, hlen⟩
  rw [compute_texcoordi_unfold, hloop]
  rfl

/-- In every other case `compute_texcoordi` is undefined. -/
theorem compute_texcoordi_undefined (K : texcoord_kernel F V3 V2) (rx ry rz : F) (ci : V3)
    (m : simple_mesh V3 V2 Mat)
    (h : (m.normals.length < simple_mesh.get_nr_positions m ∧ 2147483647 < m.normals.length) ∨
      (simple_mesh.get_nr_positions m ≤ m.normals.length ∧
        (2147483647 < simple_mesh.get_nr_positions m ∨
          2147483647 < get_nr_corners m.tosimple_mesh_base))) :
    simple_mesh.compute_texcoordi K rx ry rz ci m = Except.error failure.undefined := by
  rw [compute_texcoordi_unfold]
  by_cases hp : 2147483647 < simple_mesh.get_nr_positions m
  · rw [texcoordi_first_loop_undefined K rx ry rz ci m hp (by omega)]
    rfl
  · obtain ⟨tcs, hloop, _⟩ := texcoordi_first_loop_ok K rx ry rz ci m (by omega) (by omega)
    rw [hloop]
    exact texcoordi_second_loop_undefined m tcs (by omega)

/-- The body of `pick_face` for face `f` is the same on every normal pool that agrees
with the mesh's at the position index of the first corner of `f`. -/
theorem pick_face_step_normals (K : pick_kernel V3 C) (m : simple_mesh V3 V2 Mat)
    (ns2 : List V3) (p : V3) (c : C) (f : Nat)
    (h : ∀ b i, begin_corner m.tosimple_mesh_base f = some b →
      c2p m.tosimple_mesh_base b = some i → m.normals[i]? = ns2[i]?) :
    simple_mesh.pick_face_step K { m with normals := ns2 } p c f
      = simple_mesh.pick_face_step K m p c f := by
  unfold simple_mesh.pick_face_step vector_at
  simp only []
  cases hb : m.faces[f]? with
  | none => rfl
  | some b =>
    cases h1 : m.position_indices[b]? with
    | none => simp [bind, Except.bind, h1]
    | some i1 =>
      have hn := h b i1 hb h1
      simp only [bind, Except.bind, h1, ← hn]

/-- The body of `pick_face` for one face leaves the colour store alone, or colours the
first three positions of the face, or throws before it has coloured anything. -/
theorem pick_face_step_cases (K : pick_kernel V3 C) (m : simple_mesh V3 V2 Mat)
    (p : V3) (c : C) (f : Nat) :
    simple_mesh.pick_face_step K m p c f = Except.ok c ∨
    (∃ i1 i2 i3, simple_mesh.face_first_positions m f = some (i1, i2, i3) ∧
      simple_mesh.pick_face_step K m p c f
        = Except.ok (K.set_color (K.set_color (K.set_color c i1) i2) i3)) ∨
    simple_mesh.pick_face_step K m p c f = Except.error (failure.out_of_range c) := by
  unfold simple_mesh.pick_face_step simple_mesh.face_first_positions vector_at
  cases hb : m.faces[f]? with
  | none => right; right; rfl
  | some b =>
    cases h1 : m.position_indices[b]? with
    | none => right; right; simp [bind, Except.bind, h1]
    | some i1 =>
      cases h2 : m.position_indices[idx_add b 1]? with
      | none => right; right; simp [bind, Except.bind, h1, h2]
      | some i2 =>
        cases h3 : m.position_indices[idx_add b 2]? with
        | none => right; right; simp [bind, Except.bind, h1, h2, h3]
        | some i3 =>
          cases g1 : m.positions[i1]? with
          | none => right; right; simp [bind, Except.bind, h1, h2, h3, g1]
          | some p1 =>
            cases g2 : m.positions[i2]? with
            | none => right; right; simp [bind, Except.bind, h1, h2, h3, g1, g2]
            | some p2 =>
              cases g3 : m.positions[i3]? with
              | none => right; right; simp [bind, Except.bind, h1, h2, h3, g1, g2, g3]
              | some p3 =>
                cases gn : m.normals[i1]? with
                | none => right; right; simp [bind, Except.bind, h1, h2, h3, g1, g2, g3, gn]
                | some n1 =>
                  by_cases t1 : K.edge_test p1 p2 p (K.face_normal n1 n1 n1) = true
                  · by_cases t2 : K.edge_test p2 p3 p (K.face_normal n1 n1 n1) = true
                    · by_cases t3 : K.edge_test p3 p1 p (K.face_normal n1 n1 n1) = true
                      · right; left
                        exact ⟨i1, i2, i3, by simp [h1, h2, h3],
                          by simp [bind, Except.bind, pure, Except.pure, h1, h2, h3, g1, g2, g3,
                            gn, t1, t2, t3]⟩
                      · left
                        simp [bind, Except.bind, pure, Except.pure, h1, h2, h3, g1, g2, g3,
                          gn, t1, t2, t3]
                    · left
                      simp [bind, Except.bind, pure, Except.pure, h1, h2, h3, g1, g2, g3,
                        gn, t1, t2]
                  · left
                    simp [bind, Except.bind, pure, Except.pure, h1, h2, h3, g1, g2, g3,
                      gn, t1]

/-- The colour store after `pick_face`, returned or at the throw, is the initial store
with the first three positions of some of the faces coloured, face by face. -/
theorem pick_face_hits (K : pick_kernel V3 C) (m : simple_mesh V3 V2 Mat) (p : V3) (c : C) :
    (∃ s, simple_mesh.pick_face K m p c = Except.ok s ∧
      ∃ hits : List Nat, hits.Sublist (List.range m.faces.length) ∧
        (∀ f, f ∈ hits → ∃ i1 i2 i3, simple_mesh.face_first_positions m f = some (i1, i2, i3)) ∧
        s = (hits.flatMap (simple_mesh.coloured_by m)).foldl K.set_color c) ∨
    (∃ s, simple_mesh.pick_face K m p c = Except.error (failure.out_of_range s) ∧
      ∃ hits : List Nat, hits.Sublist (List.range m.faces.length) ∧
        (∀ f, f ∈ hits → ∃ i1 i2 i3, simple_mesh.face_first_positions m f = some (i1, i2, i3)) ∧
        s = (hits.flatMap (simple_mesh.coloured_by m)).foldl K.set_color c) ∨
    simple_mesh.pick_face K m p c = Except.error failure.undefined := by
  have h := for_int_cases m.faces.length (simple_mesh.pick_face_step K m p)
    (fun k s => ∃ hits : List Nat, hits.Sublist (List.range k) ∧
        (∀ f, f ∈ hits → ∃ i1 i2 i3, simple_mesh.face_first_positions m f = some (i1, i2, i3)) ∧
        s = (hits.flatMap (simple_mesh.coloured_by m)).foldl K.set_color c)
    (fun e => ∃ s, e = failure.out_of_range s ∧
      ∃ hits : List Nat, hits.Sublist (List.range m.faces.length) ∧
        (∀ f, f ∈ hits → ∃ i1 i2 i3, simple_mesh.face_first_positions m f = some (i1, i2, i3)) ∧
        s = (hits.flatMap (simple_mesh.coloured_by m)).foldl K.set_color c)
    c ⟨[], List.Sublist.refl _, fun f hf => absurd hf (List.not_mem_nil f), rfl⟩
    (by
      rintro i s hi _ ⟨hits, hsub, hall, hs⟩
      have hsub1 : hits.Sublist (List.range (i + 1)) := by
        rw [List.range_succ]
        exact List.Sublist.trans hsub (List.sublist_append_left _ _)
      rcases pick_face_step_cases K m p s i with h0 | ⟨i1, i2, i3, hf, h3⟩ | he
      · exact Or.inl ⟨s, h0, hits, hsub1, hall, hs⟩
      · refine Or.inl ⟨_, h3, hits ++ [i], ?_, ?_, ?_⟩
        · rw [List.range_succ]
          exact List.Sublist.append hsub (List.Sublist.refl _)
        · intro f hfm
          rcases List.mem_append.1 hfm with h | h
          · exact hall f h
          · rw [List.mem_singleton.1 h]
            exact ⟨i1, i2, i3, hf⟩
        · have hc : simple_mesh.coloured_by m i = [i1, i2, i3] := by
            unfold simple_mesh.coloured_by
            rw [hf]
          rw [List.flatMap_append, List.foldl_append, ← hs]
          simp [List.flatMap, hc]
      · exact Or.inr ⟨_, he, s, rfl, hits,
          List.Sublist.trans hsub (List.range_sublist.2 (Nat.le_of_lt hi)), hall, hs⟩)
  rcases h with ⟨s, hs, hI, _⟩ | ⟨e, he, hQ⟩
  · exact Or.inl ⟨s, hs, hI⟩
  · rcases hQ with ⟨s, hes, hI⟩ | ⟨hu, _, _⟩
    · exact Or.inr (Or.inl ⟨s, by rw [← hes]; exact he, hI⟩)
    · exact Or.inr (Or.inr (by rw [← hu]; exact he))

/-- The model of `compute_texcoordi` on the triangle-plus-quadrilateral mesh with stale
texture data: one texture coordinate per position (the fourth point is rejected) and the
position index of every corner as its texture-coordinate index. -/
theorem compute_texcoordi_tri_quad :
    (returned (simple_mesh.compute_texcoordi kernel_numbers 1 2 3 4 mesh_tri_quad_pools)).map
        (fun m => (m.tex_coords, m.tex_coord_indices))
      = some ([21, 31, 41, 0, 61], [0, 1, 2, 2, 1, 3, 4]) := by
  rfl

/-- The model of `pick_face` on the triangle-plus-quadrilateral mesh: the query point 99
colours the triangle only, the query point 100 both faces. -/
theorem pick_face_tri_quad :
    simple_mesh.pick_face kernel_pick_numbers mesh_tri_quad_pools 99 [] = Except.ok [0, 1, 2] ∧
    simple_mesh.pick_face kernel_pick_numbers mesh_tri_quad_pools 100 []
      = Except.ok [0, 1, 2, 2, 1, 3] :=
  ⟨rfl, rfl⟩

/-! ## The claims -/

/-- C1 (as stated) fails on the mesh produced by a single `start_face()`: its face
starts are strictly increasing and none exceeds the corner count, face 0 is a face,
but `begin_corner(0) = end_corner(0) = 0`, so `begin_corner(0) < end_corner(0)` is false. -/
theorem C1_counterexample :
    FaceStartsIncreasing mesh_open_face ∧ FaceStartsBounded mesh_open_face ∧
    0 < get_nr_faces mesh_open_face ∧
    ¬ (∃ b e, begin_corner mesh_open_face 0 = some b ∧ end_corner mesh_open_face 0 = some e ∧
        b < e ∧ e ≤ get_nr_corners mesh_open_face) := by
  refine ⟨?_, ?_, ?_, ?_⟩
  · simp [FaceStartsIncreasing, mesh_open_face]
  · simp [FaceStartsBounded, mesh_open_face]
  · decide
  · rintro ⟨b, e, hb, he, hlt, _⟩
    have hb0 : b = 0 := by
      have : begin_corner mesh_open_face 0 = some 0 := by decide
      rw [this] at hb
      exact (Option.some.inj hb).symm
    have he0 : e = 0 := by
      have : end_corner mesh_open_face 0 = some 0 := by decide
      rw [this] at he
      exact (Option.some.inj he).symm
    omega

/-- C1 (amended): for every mesh whose face starts are strictly increasing and none of
which exceeds the corner count, and every face index `f < get_nr_faces()`, both
`begin_corner(f)` and `end_corner(f)` are defined,
`begin_corner(f) ≤ end_corner(f) ≤ get_nr_corners()`, and
`begin_corner(f) < end_corner(f)` holds exactly when `begin_corner(f) < get_nr_corners()`. -/
theorem C1_corner_range (Mat : Type) (m : simple_mesh_base Mat) (f : Nat)
    (hinc : FaceStartsIncreasing m) (hbd : FaceStartsBounded m) (hf : f < get_nr_faces m) :
    ∃ b e, begin_corner m f = some b ∧ end_corner m f = some e ∧
      b ≤ e ∧ e ≤ get_nr_corners m ∧ (b < e ↔ b < get_nr_corners m) := by
  obtain ⟨hlen, h32⟩ := lt_nr_faces hf
  have hb := faces_le_nr_corners hbd hlen
  by_cases hl : f + 1 = m.faces.length
  · exact ⟨_, _, begin_corner_of_lt hlen, end_corner_last hl h32, hb, le_refl _, Iff.rfl⟩
  · have hl2 : f + 1 < m.faces.length := by omega
    have hlt := faces_lt_of_lt hinc (i := f) (j := f + 1) (by omega) hl2
    have he := faces_le_nr_corners hbd hl2
    exact ⟨_, _, begin_corner_of_lt hlen, end_corner_inner hl2 h32, by omega, he,
      ⟨fun _ => by omega, fun _ => hlt⟩⟩

/-- Witness for C1 (amended): the second face of the triangle-plus-quadrilateral mesh. -/
theorem C1_corner_range_witness :
    FaceStartsIncreasing mesh_tri_quad ∧ FaceStartsBounded mesh_tri_quad ∧
    1 < get_nr_faces mesh_tri_quad ∧
    ∃ b e, begin_corner mesh_tri_quad 1 = some b ∧ end_corner mesh_tri_quad 1 = some e ∧
      b ≤ e ∧ e ≤ get_nr_corners mesh_tri_quad ∧ (b < e ↔ b < get_nr_corners mesh_tri_quad) :=
  have hinc : FaceStartsIncreasing mesh_tri_quad := by
    simp [FaceStartsIncreasing, mesh_tri_quad]
  have hbd : FaceStartsBounded mesh_tri_quad := by
    simp [FaceStartsBounded, mesh_tri_quad, get_nr_corners, idx_of_size]
  ⟨hinc, hbd, by decide, C1_corner_range Unit mesh_tri_quad 1 hinc hbd (by decide)⟩

/-- C2 (as stated) fails on a mesh whose `faces` vector has `2 ^ 32 + 1` entries:
`get_nr_faces()` is `1`, so face `0` counts as the last face (`0 + 1 = get_nr_faces()`),
but `end_corner(0)` compares `0 + 1` with `faces.size()` and returns `faces[1] = 7`,
not `get_nr_corners() = 0`. -/
theorem C2_counterexample :
    0 < get_nr_faces mesh_many_faces ∧ 0 + 1 = get_nr_faces mesh_many_faces ∧
    end_corner mesh_many_faces 0 = some 7 ∧ get_nr_corners mesh_many_faces = 0 ∧
    end_corner mesh_many_faces 0 ≠ some (get_nr_corners mesh_many_faces) := by
  have hlen : mesh_many_faces.faces.length = 4294967297 := List.length_replicate _ _
  have h1 : get_nr_faces mesh_many_faces = 1 := by
    rw [get_nr_faces_of_length hlen]
  have hfaces : mesh_many_faces.faces = List.replicate 4294967297 7 := rfl
  have hidx : idx_add 0 1 = 1 := by decide
  have hget : (List.replicate 4294967297 7)[1]? = some 7 :=
    List.getElem?_replicate_of_lt (by omega)
  have h2 : end_corner mesh_many_faces 0 = some 7 := by
    unfold end_corner
    rw [hidx, hlen, if_neg (by omega), hfaces]
    exact hget
  have h3 : get_nr_corners mesh_many_faces = 0 := rfl
  refine ⟨by omega, by omega, h2, h3, ?_⟩
  rw [h2, h3]
  simp

/-- C2 (amended): for every mesh with fewer than `2 ^ 32` faces and every face index
`f < get_nr_faces()`: if `f` is not the last face then `end_corner(f)` and
`begin_corner(f + 1)` are the same defined value, and if `f + 1 = get_nr_faces()` then
`end_corner(f) = get_nr_corners()`. -/
theorem C2_end_corner_contiguous (Mat : Type) (m : simple_mesh_base Mat) (f : Nat)
    (hsize : m.faces.length < 4294967296) (hf : f < get_nr_faces m) :
    (f + 1 ≠ get_nr_faces m →
      ∃ e, end_corner m f = some e ∧ begin_corner m (f + 1) = some e) ∧
    (f + 1 = get_nr_faces m → end_corner m f = some (get_nr_corners m)) := by
  obtain ⟨hlen, h32⟩ := lt_nr_faces hf
  have hnr : get_nr_faces m = m.faces.length := by
    unfold get_nr_faces idx_of_size
    omega
  rw [hnr]
  constructor
  · intro hne
    have hl2 : f + 1 < m.faces.length := by omega
    exact ⟨_, end_corner_inner hl2 h32, begin_corner_of_lt hl2⟩
  · intro hl
    exact end_corner_last hl h32

/-- Witness for C2 (amended): the first face of the triangle-plus-quadrilateral mesh. -/
theorem C2_end_corner_contiguous_witness :
    mesh_tri_quad.faces.length < 4294967296 ∧ 0 < get_nr_faces mesh_tri_quad ∧
    (0 + 1 ≠ get_nr_faces mesh_tri_quad →
      ∃ e, end_corner mesh_tri_quad 0 = some e ∧ begin_corner mesh_tri_quad (0 + 1) = some e) ∧
    (0 + 1 = get_nr_faces mesh_tri_quad →
      end_corner mesh_tri_quad 0 = some (get_nr_corners mesh_tri_quad)) :=
  ⟨by decide, by decide, C2_end_corner_contiguous Unit mesh_tri_quad 0 (by decide) (by decide)⟩

/-- C3: for every mesh with at least one face whose face starts are strictly increasing,
start at 0 and are bounded by the corner count, every corner index
`c < get_nr_corners()` lies in the corner range `[begin_corner(f), end_corner(f))` of
exactly one face `f < get_nr_faces()`. -/
theorem C3_corner_in_exactly_one_face (Mat : Type) (m : simple_mesh_base Mat) (c : Nat)
    (hpos : 0 < get_nr_faces m) (hinc : FaceStartsIncreasing m)
    (h0 : begin_corner m 0 = some 0) (hbd : FaceStartsBounded m)
    (hc : c < get_nr_corners m) :
    ∃! f, f < get_nr_faces m ∧
      ∃ b e, begin_corner m f = some b ∧ end_corner m f = some e ∧ b ≤ c ∧ c < e := by
  obtain ⟨f, hf, hin⟩ := exists_inFace hpos hinc h0 hbd hc
  refine ⟨f, ⟨hf, (inFace_iff hf c).1 hin⟩, ?_⟩
  rintro g ⟨hg, hgin⟩
  exact inFace_unique (nondecreasing_of_increasing hinc) hbd ((inFace_iff hg c).2 hgin) hin

/-- Witness for C3: corner 4 of the triangle-plus-quadrilateral mesh. -/
theorem C3_corner_in_exactly_one_face_witness :
    0 < get_nr_faces mesh_tri_quad ∧ FaceStartsIncreasing mesh_tri_quad ∧
    begin_corner mesh_tri_quad 0 = some 0 ∧ FaceStartsBounded mesh_tri_quad ∧
    4 < get_nr_corners mesh_tri_quad ∧
    ∃! f, f < get_nr_faces mesh_tri_quad ∧
      ∃ b e, begin_corner mesh_tri_quad f = some b ∧ end_corner mesh_tri_quad f = some e ∧
        b ≤ 4 ∧ 4 < e :=
  have hinc : FaceStartsIncreasing mesh_tri_quad := by
    simp [FaceStartsIncreasing, mesh_tri_quad]
  have hbd : FaceStartsBounded mesh_tri_quad := by
    simp [FaceStartsBounded, mesh_tri_quad, get_nr_corners, idx_of_size]
  ⟨by decide, hinc, by decide, hbd, by decide,
    C3_corner_in_exactly_one_face Unit mesh_tri_quad 4 (by decide) hinc (by decide) hbd
      (by decide)⟩

/-- C4 (code at the failing input): an estimator bound to the point cloud `P = [1, 2]`
(address 0) and the neighbor graph `G` (address 0) is given `Q = [3]` (address 1) by
`set_pc` and `H = [[]]` (address 1) by `set_ng`.  Afterwards its reference members are
still bound to address 0, not to `Q` and `H`, and the contents of `P` and `G` have been
overwritten by copies of `Q` and `H`. -/
theorem C4_set_pc_set_ng_assign_through :
    (normal_estimator.set_pc estimator_on_first heap_two_clouds 1).1.pc = 0 ∧
    heap_two_clouds.point_clouds 0 = [1, 2] ∧
    (normal_estimator.set_pc estimator_on_first heap_two_clouds 1).2.point_clouds 0 = [3] ∧
    (normal_estimator.set_ng estimator_on_first heap_two_clouds 1).1.ng = 0 ∧
    heap_two_clouds.neighbor_graphs 0 = [[1], [0]] ∧
    (normal_estimator.set_ng estimator_on_first heap_two_clouds 1).2.neighbor_graphs 0
      = [[]] := by
  refine ⟨rfl, rfl, ?_, rfl, rfl, ?_⟩
  · simp [normal_estimator.set_pc, estimator_on_first, heap_two_clouds]
  · simp [normal_estimator.set_ng, estimator_on_first, heap_two_clouds]

/-- C5 (as stated) fails for `new_position` on a mesh with `2 ^ 32 - 1` positions, which
is fewer than `2 ^ 32`: `get_nr_positions()` is `4294967295` before the call and `0`
after it, not one more. -/
theorem C5_counterexample :
    mesh_full_positions.positions.length < 4294967296 ∧
    simple_mesh.get_nr_positions mesh_full_positions = 4294967295 ∧
    simple_mesh.get_nr_positions (simple_mesh.new_position mesh_full_positions ()).1 = 0 ∧
    ¬ AppendReturnsIndex (simple_mesh.get_nr_positions mesh_full_positions)
        (simple_mesh.get_nr_positions (simple_mesh.new_position mesh_full_positions ()).1)
        (simple_mesh.new_position mesh_full_positions ()).2
        (simple_mesh.position mesh_full_positions)
        (simple_mesh.position (simple_mesh.new_position mesh_full_positions ()).1) () := by
  have hlen : mesh_full_positions.positions.length = 4294967295 := List.length_replicate _ _
  have h1 : simple_mesh.get_nr_positions mesh_full_positions = 4294967295 := by
    rw [get_nr_positions_of_length hlen]
  have h2 : simple_mesh.get_nr_positions
      (simple_mesh.new_position mesh_full_positions ()).1 = 0 := by
    rw [get_nr_positions_new_position mesh_full_positions () hlen]
  refine ⟨by omega, h1, h2, ?_⟩
  rintro ⟨_, h, _⟩
  rw [h1, h2] at h
  omega

/-- C5 (amended): `new_position(p)` on a mesh with fewer than `2 ^ 32 - 1` positions
returns the value `get_nr_positions()` had before the call, increases
`get_nr_positions()` by exactly one, makes `position(returned index) = p`, and leaves
every previously stored position unchanged; the same holds for `new_normal` and
`new_tex_coord` with fewer than `2 ^ 32 - 1` entries in their pools, and for `new_group`
(`get_nr_groups`, `group_name`) and `new_material` (`get_nr_materials`, `get_material`,
the appended material being `mat_type()`) with fewer than `2 ^ 32` entries. -/
theorem C5_append_returns_index (V3 V2 Mat : Type) [Inhabited Mat]
    (m : simple_mesh V3 V2 Mat) (p n : V3) (tc : V2) (name : String) :
    (m.positions.length + 1 < 4294967296 →
      AppendReturnsIndex (simple_mesh.get_nr_positions m)
        (simple_mesh.get_nr_positions (simple_mesh.new_position m p).1)
        (simple_mesh.new_position m p).2
        (simple_mesh.position m) (simple_mesh.position (simple_mesh.new_position m p).1) p) ∧
    (m.normals.length + 1 < 4294967296 →
      AppendReturnsIndex (simple_mesh.get_nr_normals m)
        (simple_mesh.get_nr_normals (simple_mesh.new_normal m n).1)
        (simple_mesh.new_normal m n).2
        (simple_mesh.normal m) (simple_mesh.normal (simple_mesh.new_normal m n).1) n) ∧
    (m.tex_coords.length + 1 < 4294967296 →
      AppendReturnsIndex (simple_mesh.get_nr_tex_coords m)
        (simple_mesh.get_nr_tex_coords (simple_mesh.new_tex_coord m tc).1)
        (simple_mesh.new_tex_coord m tc).2
        (simple_mesh.tex_coord m)
        (simple_mesh.tex_coord (simple_mesh.new_tex_coord m tc).1) tc) ∧
    (m.group_names.length < 4294967296 →
      AppendReturnsIndex (get_nr_groups m.tosimple_mesh_base)
        (get_nr_groups (simple_mesh.new_group m name).1.tosimple_mesh_base)
        (simple_mesh.new_group m name).2
        (group_name m.tosimple_mesh_base)
        (group_name (simple_mesh.new_group m name).1.tosimple_mesh_base) name) ∧
    (m.materials.length < 4294967296 →
      AppendReturnsIndex (get_nr_materials m.tosimple_mesh_base)
        (get_nr_materials (simple_mesh.new_material m).1.tosimple_mesh_base)
        (simple_mesh.new_material m).2
        (get_material m.tosimple_mesh_base)
        (get_material (simple_mesh.new_material m).1.tosimple_mesh_base) default) :=
  ⟨fun h => append_returns_index_idx m.positions p h,
   fun h => append_returns_index_idx m.normals n h,
   fun h => append_returns_index_idx m.tex_coords tc h,
   fun h => append_returns_index_size m.group_names name h,
   fun h => append_returns_index_size m.materials default h⟩

/-- Witness for C5 (amended): the five append operations on a mesh with two positions,
one normal, no texture coordinate, one group and no material. -/
theorem C5_append_returns_index_witness :
    (mesh_small_pools.positions.length + 1 < 4294967296 ∧
      AppendReturnsIndex (simple_mesh.get_nr_positions mesh_small_pools)
        (simple_mesh.get_nr_positions (simple_mesh.new_position mesh_small_pools 12).1)
        (simple_mesh.new_position mesh_small_pools 12).2
        (simple_mesh.position mesh_small_pools)
        (simple_mesh.position (simple_mesh.new_position mesh_small_pools 12).1) 12) ∧
    (mesh_small_pools.normals.length + 1 < 4294967296 ∧
      AppendReturnsIndex (simple_mesh.get_nr_normals mesh_small_pools)
        (simple_mesh.get_nr_normals (simple_mesh.new_normal mesh_small_pools 21).1)
        (simple_mesh.new_normal mesh_small_pools 21).2
        (simple_mesh.normal mesh_small_pools)
        (simple_mesh.normal (simple_mesh.new_normal mesh_small_pools 21).1) 21) ∧
    (mesh_small_pools.tex_coords.length + 1 < 4294967296 ∧
      AppendReturnsIndex (simple_mesh.get_nr_tex_coords mesh_small_pools)
        (simple_mesh.get_nr_tex_coords (simple_mesh.new_tex_coord mesh_small_pools 30).1)
        (simple_mesh.new_tex_coord mesh_small_pools 30).2
        (simple_mesh.tex_coord mesh_small_pools)
        (simple_mesh.tex_coord (simple_mesh.new_tex_coord mesh_small_pools 30).1) 30) ∧
    (mesh_small_pools.group_names.length < 4294967296 ∧
      AppendReturnsIndex (get_nr_groups mesh_small_pools.tosimple_mesh_base)
        (get_nr_groups (simple_mesh.new_group mesh_small_pools "h").1.tosimple_mesh_base)
        (simple_mesh.new_group mesh_small_pools "h").2
        (group_name mesh_small_pools.tosimple_mesh_base)
        (group_name (simple_mesh.new_group mesh_small_pools "h").1.tosimple_mesh_base) "h") ∧
    (mesh_small_pools.materials.length < 4294967296 ∧
      AppendReturnsIndex (get_nr_materials mesh_small_pools.tosimple_mesh_base)
        (get_nr_materials (simple_mesh.new_material mesh_small_pools).1.tosimple_mesh_base)
        (simple_mesh.new_material mesh_small_pools).2
        (get_material mesh_small_pools.tosimple_mesh_base)
        (get_material (simple_mesh.new_material mesh_small_pools).1.tosimple_mesh_base)
        default) :=
  ⟨⟨by decide, (C5_append_returns_index Nat Nat Nat mesh_small_pools 12 21 30 "h").1
      (by decide)⟩,
   ⟨by decide, (C5_append_returns_index Nat Nat Nat mesh_small_pools 12 21 30 "h").2.1
      (by decide)⟩,
   ⟨by decide, (C5_append_returns_index Nat Nat Nat mesh_small_pools 12 21 30 "h").2.2.1
      (by decide)⟩,
   ⟨by decide, (C5_append_returns_index Nat Nat Nat mesh_small_pools 12 21 30 "h").2.2.2.1
      (by decide)⟩,
   ⟨by decide, (C5_append_returns_index Nat Nat Nat mesh_small_pools 12 21 30 "h").2.2.2.2
      (by decide)⟩⟩

/-- C6: the default arguments `normal_index = -1` and `tex_coord_index = -1` of
`new_corner`, converted to the 32-bit unsigned `idx_type`, both equal
`2 ^ 32 - 1 = 4294967295`, and no `idx_type` value (the conversion of any size or of any
signed integer) is greater. -/
theorem C6_unset_sentinel_is_max :
    new_corner_default_normal_index = 4294967295 ∧
    new_corner_default_tex_coord_index = 4294967295 ∧
    (4294967295 : Nat) = 2 ^ 32 - 1 ∧
    (∀ n : Nat, idx_of_size n ≤ new_corner_default_normal_index) ∧
    (∀ z : Int, idx_of_int z ≤ new_corner_default_tex_coord_index) := by
  have h : idx_of_int (-1) = 4294967295 := by decide
  refine ⟨h, h, by norm_num, ?_, ?_⟩
  · intro n
    unfold new_corner_default_normal_index
    rw [h]
    unfold idx_of_size
    omega
  · intro z
    unfold new_corner_default_tex_coord_index
    rw [h]
    unfold idx_of_int
    omega

/-- C7: for every mesh satisfying the face-partition invariant, `compute_c2f` returns a
vector with `get_nr_corners()` entries in which, for every corner `c` and face `f`,
`c2f[c] = f` if and only if `begin_corner(f) ≤ c < end_corner(f)`; this holds whatever
the entries held before they were stamped. -/
theorem C7_compute_c2f_stamps_containing_face (Mat : Type) (m : simple_mesh_base Mat)
    (fill : Nat) (hpart : FacePartition m) :
    ∃ c2f, compute_c2f m fill = some c2f ∧ c2f.length = get_nr_corners m ∧
      ∀ c f, c < get_nr_corners m → f < get_nr_faces m →
        (c2f[c]? = some f ↔
          ∃ b e, begin_corner m f = some b ∧ end_corner m f = some e ∧ b ≤ c ∧ c < e) := by
  obtain ⟨hinc, hbd, h0⟩ := hpart
  have hmono := nondecreasing_of_increasing hinc
  obtain ⟨r, hr, hlen, hspec⟩ := compute_c2f_spec hmono hbd fill
  refine ⟨r, hr, hlen, ?_⟩
  intro c f hc hf
  rw [← inFace_iff hf c]
  constructor
  · intro hrc
    obtain ⟨g, hg, hgin⟩ := exists_inFace (by omega) hinc (h0 (by omega)) hbd hc
    have hrg := (hspec c hc).1 g hg hgin
    rw [hrc] at hrg
    rw [Option.some.inj hrg]
    exact hgin
  · intro hin
    exact (hspec c hc).1 f hf hin

/-- Witness for C7: the triangle-plus-quadrilateral mesh, unstamped entries holding the
unset sentinel. -/
theorem C7_compute_c2f_stamps_containing_face_witness :
    FacePartition mesh_tri_quad ∧
    ∃ c2f, compute_c2f mesh_tri_quad 4294967295 = some c2f ∧
      c2f.length = get_nr_corners mesh_tri_quad ∧
      ∀ c f, c < get_nr_corners mesh_tri_quad → f < get_nr_faces mesh_tri_quad →
        (c2f[c]? = some f ↔
          ∃ b e, begin_corner mesh_tri_quad f = some b ∧ end_corner mesh_tri_quad f = some e ∧
            b ≤ c ∧ c < e) :=
  have hpart : FacePartition mesh_tri_quad :=
    ⟨by simp [FaceStartsIncreasing, mesh_tri_quad],
     by simp [FaceStartsBounded, mesh_tri_quad, get_nr_corners, idx_of_size],
     fun _ => by decide⟩
  ⟨hpart, C7_compute_c2f_stamps_containing_face Unit mesh_tri_quad 4294967295 hpart⟩

/-- C8: `revert_face_orientation` is an involution.  For every mesh of the data model,
whose face starts are in order (non-decreasing is enough) and do not exceed the corner
count, `revert_face_orientation` succeeds, succeeds again on its result, and the second
result has the position-, normal- and texcoord-index vectors and the face starts of the
original mesh. -/
theorem C8_revert_face_orientation_involution (Mat : Type) (m : simple_mesh_base Mat)
    (hmono : FaceStartsNondecreasing m) (hbd : FaceStartsBounded m) :
    ∃ m1 m2, revert_face_orientation m = some m1 ∧ revert_face_orientation m1 = some m2 ∧
      m2.position_indices = m.position_indices ∧ m2.normal_indices = m.normal_indices ∧
      m2.tex_coord_indices = m.tex_coord_indices ∧ m2.faces = m.faces := by
  obtain ⟨p1, n1, t1, h1, hp1, hn1, ht1⟩ := revert_face_orientation_spec hmono hbd
  have hplen : p1.length = m.position_indices.length := hp1.1
  have hcb := corner_boundary_with_indices m p1 n1 t1 hplen
  have hbd1 : FaceStartsBounded (with_indices m p1 n1 t1) := by
    intro b hb
    have h := hbd b hb
    unfold get_nr_corners at h ⊢
    unfold with_indices
    simp only [hplen]
    exact h
  obtain ⟨p2, n2, t2, h2, hp2, hn2, ht2⟩ :=
    revert_face_orientation_spec (m := with_indices m p1 n1 t1) hmono hbd1
  have hn2b : PairedMirrored (with_indices m p1 n1 t1) m.position_indices.length
      (get_nr_faces m) n1 n2 := by
    have h := hn2
    unfold with_indices at h
    simp only [hplen] at h
    exact h
  have ht2b : PairedMirrored (with_indices m p1 n1 t1) m.position_indices.length
      (get_nr_faces m) t1 t2 := by
    have h := ht2
    unfold with_indices at h
    simp only [hplen] at h
    exact h
  exact ⟨_, _, h1, h2, mirroredWithin_twice hp1 (mirroredWithin_congr hcb hp2),
    pairedMirrored_twice hcb hn1 hn2b, pairedMirrored_twice hcb ht1 ht2b, rfl⟩

/-- Witness for C8: the triangle-plus-quadrilateral mesh with paired normals. -/
theorem C8_revert_face_orientation_involution_witness :
    FaceStartsNondecreasing mesh_tri_quad_normals ∧ FaceStartsBounded mesh_tri_quad_normals ∧
    ∃ m1 m2, revert_face_orientation mesh_tri_quad_normals = some m1 ∧
      revert_face_orientation m1 = some m2 ∧
      m2.position_indices = mesh_tri_quad_normals.position_indices ∧
      m2.normal_indices = mesh_tri_quad_normals.normal_indices ∧
      m2.tex_coord_indices = mesh_tri_quad_normals.tex_coord_indices ∧
      m2.faces = mesh_tri_quad_normals.faces :=
  have hmono : FaceStartsNondecreasing mesh_tri_quad_normals := by
    simp [FaceStartsNondecreasing, mesh_tri_quad_normals]
  have hbd : FaceStartsBounded mesh_tri_quad_normals := by
    simp [FaceStartsBounded, mesh_tri_quad_normals, get_nr_corners, idx_of_size]
  ⟨hmono, hbd, C8_revert_face_orientation_involution Unit mesh_tri_quad_normals hmono hbd⟩

/-- C10: for every mesh with at least one face whose face starts are strictly
increasing, start at 0 and are bounded by the corner count, the face degrees
`face_degree(f)` of all `f < get_nr_faces()` add up to `get_nr_corners()`, and for each
such face `begin_corner(f) ≤ end_corner(f)` and `face_degree(f)` is the exact difference
`end_corner(f) - begin_corner(f)`: the 32-bit subtraction does not wrap. -/
theorem C10_face_degrees_sum_to_corners (Mat : Type) (m : simple_mesh_base Mat)
    (hpos : 0 < get_nr_faces m) (hinc : FaceStartsIncreasing m)
    (h0 : begin_corner m 0 = some 0) (hbd : FaceStartsBounded m) :
    Finset.sum (Finset.range (get_nr_faces m)) (fun f => (face_degree m f).getD 0)
        = get_nr_corners m ∧
    ∀ f, f < get_nr_faces m →
      ∃ b e d, begin_corner m f = some b ∧ end_corner m f = some e ∧
        face_degree m f = some d ∧ b ≤ e ∧ (d : Int) = (e : Int) - (b : Int) := by
  have hnr := nr_faces_eq_length hinc hbd hpos
  have hlen32 : m.faces.length < 4294967296 := by
    have := (lt_nr_faces hpos).2
    unfold get_nr_faces idx_of_size at hnr
    omega
  have hlen0 : 0 < m.faces.length := (lt_nr_faces hpos).1
  have hf0 : m.faces[0] = 0 := (begin_corner_eq_some hlen0 h0).symm
  rw [hnr]
  constructor
  · have h := sum_face_degree_boundary (nondecreasing_of_increasing hinc) hbd hlen32
      m.faces.length (le_refl _)
    rw [corner_boundary_length, corner_boundary_of_lt hlen0, hf0] at h
    simpa using h
  · intro f hf
    have hle := corner_boundary_le_succ (nondecreasing_of_increasing hinc) hbd f
    refine ⟨_, _, _, begin_corner_boundary hf, end_corner_boundary hf (by omega),
      face_degree_boundary (nondecreasing_of_increasing hinc) hbd hf (by omega), hle, ?_⟩
    omega

/-- Witness for C10: the triangle-plus-quadrilateral mesh (degrees 3 and 4, 7 corners). -/
theorem C10_face_degrees_sum_to_corners_witness :
    0 < get_nr_faces mesh_tri_quad ∧ FaceStartsIncreasing mesh_tri_quad ∧
    begin_corner mesh_tri_quad 0 = some 0 ∧ FaceStartsBounded mesh_tri_quad ∧
    Finset.sum (Finset.range (get_nr_faces mesh_tri_quad))
        (fun f => (face_degree mesh_tri_quad f).getD 0) = get_nr_corners mesh_tri_quad ∧
    ∀ f, f < get_nr_faces mesh_tri_quad →
      ∃ b e d, begin_corner mesh_tri_quad f = some b ∧ end_corner mesh_tri_quad f = some e ∧
        face_degree mesh_tri_quad f = some d ∧ b ≤ e ∧ (d : Int) = (e : Int) - (b : Int) :=
  have hinc : FaceStartsIncreasing mesh_tri_quad := by
    simp [FaceStartsIncreasing, mesh_tri_quad]
  have hbd : FaceStartsBounded mesh_tri_quad := by
    simp [FaceStartsBounded, mesh_tri_quad, get_nr_corners, idx_of_size]
  ⟨by decide, hinc, by decide, hbd,
    C10_face_degrees_sum_to_corners Unit mesh_tri_quad (by decide) hinc (by decide) hbd⟩

/-- C11: `compute_texcoordi(rx, ry, rz, camera_intrinsic)` completes when every position
counted by `get_nr_positions()` has a normal and neither that count nor
`get_nr_corners()` exceeds `INT_MAX`.  Whenever it completes, for every input:
`get_nr_tex_coords() = get_nr_positions()` is the number of entries of the
texture-coordinate pool, the texture-coordinate index vector has
`get_nr_corners()` entries with `c2t(c) = c2p(c)` for every corner `c`, and positions,
normals, position indices and face starts are those of the mesh before the call.  The
outcome does not depend on the texture coordinates and texture-coordinate indices stored
before the call. -/
theorem C11_compute_texcoordi_result (F V3 V2 Mat : Type) (K : texcoord_kernel F V3 V2)
    (rx ry rz : F) (camera_intrinsic : V3) (m : simple_mesh V3 V2 Mat) :
    (simple_mesh.get_nr_positions m ≤ m.normals.length →
      simple_mesh.get_nr_positions m ≤ 2147483647 →
      get_nr_corners m.tosimple_mesh_base ≤ 2147483647 →
      ∃ m1, simple_mesh.compute_texcoordi K rx ry rz camera_intrinsic m = Except.ok m1) ∧
    (∀ m1, simple_mesh.compute_texcoordi K rx ry rz camera_intrinsic m = Except.ok m1 →
      simple_mesh.get_nr_tex_coords m1 = simple_mesh.get_nr_positions m1 ∧
      m1.tex_coords.length = simple_mesh.get_nr_positions m1 ∧
      m1.tex_coord_indices.length = get_nr_corners m1.tosimple_mesh_base ∧
      (∀ c, c < get_nr_corners m1.tosimple_mesh_base →
        ∃ i, c2t m1.tosimple_mesh_base c = some i ∧ c2p m1.tosimple_mesh_base c = some i) ∧
      m1.positions = m.positions ∧ m1.normals = m.normals ∧
      m1.position_indices = m.position_indices ∧ m1.faces = m.faces) ∧
    (∀ (tcs : List V2) (tis : List Nat),
      simple_mesh.compute_texcoordi K rx ry rz camera_intrinsic (simple_mesh.with_tex m tcs tis)
        = simple_mesh.compute_texcoordi K rx ry rz camera_intrinsic m) := by
  refine ⟨?_, ?_, fun _ _ => rfl⟩
  · intro h1 h2 h3
    obtain ⟨tcs, h, _⟩ := compute_texcoordi_returns K rx ry rz camera_intrinsic m h1 h2 h3
    exact ⟨_, h⟩
  · intro m1 hm1
    by_cases hk : m.normals.length < simple_mesh.get_nr_positions m
    · by_cases hmax : m.normals.length ≤ 2147483647
      · obtain ⟨tcs, h, _⟩ := compute_texcoordi_raises K rx ry rz camera_intrinsic m hk hmax
        rw [h] at hm1
        exact absurd hm1 (by simp)
      · rw [compute_texcoordi_undefined K rx ry rz camera_intrinsic m
          (Or.inl ⟨hk, by omega⟩)] at hm1
        exact absurd hm1 (by simp)
    · by_cases hmax : simple_mesh.get_nr_positions m ≤ 2147483647 ∧
          get_nr_corners m.tosimple_mesh_base ≤ 2147483647
      · obtain ⟨tcs, h, hlen⟩ := compute_texcoordi_returns K rx ry rz camera_intrinsic m
          (by omega) hmax.1 hmax.2
        rw [h] at hm1
        have hm : m1 = simple_mesh.with_tex m tcs
            (m.position_indices.take (get_nr_corners m.tosimple_mesh_base)) :=
          (Except.ok.inj hm1).symm
        subst hm
        have hc : get_nr_corners m.tosimple_mesh_base ≤ m.position_indices.length :=
          idx_of_size_le _
        refine ⟨?_, hlen, ?_, ?_, rfl, rfl, rfl, rfl⟩
        · show idx_of_size tcs.length = idx_of_size m.positions.length
          rw [hlen]
          unfold simple_mesh.get_nr_positions idx_of_size
          omega
        · show (m.position_indices.take (get_nr_corners m.tosimple_mesh_base)).length
            = get_nr_corners m.tosimple_mesh_base
          rw [List.length_take]
          omega
        · intro c hcc
          have hcc2 : c < get_nr_corners m.tosimple_mesh_base := hcc
          have hlt : c < m.position_indices.length := by omega
          refine ⟨m.position_indices[c], ?_, ?_⟩
          · show (m.position_indices.take (get_nr_corners m.tosimple_mesh_base))[c]? = _
            rw [List.getElem?_take, if_pos hcc2]
            exact List.getElem?_eq_getElem hlt
          · exact List.getElem?_eq_getElem hlt
      · rw [compute_texcoordi_undefined K rx ry rz camera_intrinsic m
          (Or.inr ⟨by omega, by omega⟩)] at hm1
        exact absurd hm1 (by simp)

/-- Witness for C11: the triangle-plus-quadrilateral mesh with five positions, five
normals and stale texture data. -/
theorem C11_compute_texcoordi_result_witness :
    simple_mesh.get_nr_positions mesh_tri_quad_pools ≤ mesh_tri_quad_pools.normals.length ∧
    simple_mesh.get_nr_positions mesh_tri_quad_pools ≤ 2147483647 ∧
    get_nr_corners mesh_tri_quad_pools.tosimple_mesh_base ≤ 2147483647 ∧
    ∃ m1, simple_mesh.compute_texcoordi kernel_numbers 1 2 3 4 mesh_tri_quad_pools
        = Except.ok m1 ∧
      simple_mesh.get_nr_tex_coords m1 = simple_mesh.get_nr_positions m1 ∧
      m1.tex_coords.length = simple_mesh.get_nr_positions m1 ∧
      m1.tex_coord_indices.length = get_nr_corners m1.tosimple_mesh_base ∧
      (∀ c, c < get_nr_corners m1.tosimple_mesh_base →
        ∃ i, c2t m1.tosimple_mesh_base c = some i ∧ c2p m1.tosimple_mesh_base c = some i) ∧
      m1.positions = mesh_tri_quad_pools.positions ∧
      m1.normals = mesh_tri_quad_pools.normals ∧
      m1.position_indices = mesh_tri_quad_pools.position_indices ∧
      m1.faces = mesh_tri_quad_pools.faces :=
  have h := C11_compute_texcoordi_result Nat Nat Nat Unit kernel_numbers 1 2 3 4
    mesh_tri_quad_pools
  have hret := h.1 (by decide) (by decide) (by decide)
  ⟨by decide, by decide, by decide, hret.elim (fun m1 hm1 => ⟨m1, hm1, h.2.1 m1 hm1⟩)⟩

/-- C12 (as stated) fails on two meshes.  On the mesh with one position, no normal and
no texture data the call raises, and the mesh at the throw is the mesh before the call:
it is left unchanged.  On the mesh with two positions and `2 ^ 32 + 1` normals
`get_nr_normals()` is 1, less than `get_nr_positions() = 2`, and the call returns. -/
theorem C12_counterexample :
    simple_mesh.compute_texcoordi kernel_numbers 1 2 3 4 mesh_position_without_normal
      = Except.error (failure.out_of_range mesh_position_without_normal) ∧
    simple_mesh.get_nr_normals mesh_many_normals = 1 ∧
    simple_mesh.get_nr_positions mesh_many_normals = 2 ∧
    ∃ m1, simple_mesh.compute_texcoordi kernel_numbers 1 2 3 4 mesh_many_normals
      = Except.ok m1 := by
  have hnl : mesh_many_normals.normals.length = 4294967297 := List.length_replicate _ _
  have hn : simple_mesh.get_nr_normals mesh_many_normals = 1 := by
    rw [get_nr_normals_of_length hnl]
  have hp : simple_mesh.get_nr_positions mesh_many_normals = 2 :=
    get_nr_positions_of_length (n := 2) rfl
  have hc : get_nr_corners mesh_many_normals.tosimple_mesh_base = 3 := rfl
  refine ⟨rfl, hn, hp, ?_⟩
  obtain ⟨tcs, h, _⟩ := compute_texcoordi_returns kernel_numbers 1 2 3 4 mesh_many_normals
    (by rw [hp, hnl]; omega) (by rw [hp]; omega) (by rw [hc]; omega)
  exact ⟨_, h⟩

/-- C12 (amended): on every mesh on which both loop counters stay in the range of `int`
(`get_nr_positions()` and `get_nr_corners()` at most `INT_MAX = 2 ^ 31 - 1`) and that has
fewer than `2 ^ 32` normals, `compute_texcoordi` raises an out-of-range error if and only
if `get_nr_normals() < get_nr_positions()`.  On every mesh with fewer normals than
`get_nr_positions()` and at most `INT_MAX` normals it raises, and at the throw the
texture-coordinate index vector is empty, the texture-coordinate pool holds one entry per
normal, the rest of the mesh is as before the call, and the mesh differs from the mesh
before the call whenever that one had a texture-coordinate index stored.  The outcome
does not depend on the texture data stored before the call. -/
theorem C12_compute_texcoordi_raises_iff (F V3 V2 Mat : Type) (K : texcoord_kernel F V3 V2)
    (rx ry rz : F) (camera_intrinsic : V3) (m : simple_mesh V3 V2 Mat) :
    (simple_mesh.get_nr_positions m ≤ 2147483647 →
      get_nr_corners m.tosimple_mesh_base ≤ 2147483647 →
      m.normals.length < 4294967296 →
      ((∃ st, simple_mesh.compute_texcoordi K rx ry rz camera_intrinsic m
          = Except.error (failure.out_of_range st)) ↔
        simple_mesh.get_nr_normals m < simple_mesh.get_nr_positions m)) ∧
    (m.normals.length < simple_mesh.get_nr_positions m →
      m.normals.length ≤ 2147483647 →
      ∃ st, simple_mesh.compute_texcoordi K rx ry rz camera_intrinsic m
          = Except.error (failure.out_of_range st) ∧
        st.tex_coord_indices = [] ∧ st.tex_coords.length = m.normals.length ∧
        st = simple_mesh.with_tex m st.tex_coords [] ∧
        (m.tex_coord_indices ≠ [] → st ≠ m)) ∧
    (∀ (tcs : List V2) (tis : List Nat),
      simple_mesh.compute_texcoordi K rx ry rz camera_intrinsic (simple_mesh.with_tex m tcs tis)
        = simple_mesh.compute_texcoordi K rx ry rz camera_intrinsic m) := by
  refine ⟨?_, ?_, fun _ _ => rfl⟩
  · intro hp hc hn32
    have hn : simple_mesh.get_nr_normals m = m.normals.length := by
      unfold simple_mesh.get_nr_normals idx_of_size
      omega
    rw [hn]
    constructor
    · rintro ⟨st, hst⟩
      by_contra hk
      obtain ⟨tcs, h, _⟩ := compute_texcoordi_returns K rx ry rz camera_intrinsic m
        (by omega) hp hc
      rw [h] at hst
      exact absurd hst (by simp)
    · intro hk
      obtain ⟨tcs, h, _⟩ := compute_texcoordi_raises K rx ry rz camera_intrinsic m hk
        (by omega)
      exact ⟨_, h⟩
  · intro hk hmax
    obtain ⟨tcs, h, hlen⟩ := compute_texcoordi_raises K rx ry rz camera_intrinsic m hk hmax
    refine ⟨_, h, rfl, hlen, rfl, ?_⟩
    intro hne heq
    apply hne
    have : (simple_mesh.with_tex m tcs []).tex_coord_indices = m.tex_coord_indices := by
      rw [heq]
    exact this.symm

/-- Witness for C12 (amended): two positions, one normal and stale texture data.  The
call raises at the second position with one fresh texture coordinate in the pool. -/
theorem C12_compute_texcoordi_raises_iff_witness :
    simple_mesh.get_nr_positions mesh_stale_tex_missing_normal ≤ 2147483647 ∧
    get_nr_corners mesh_stale_tex_missing_normal.tosimple_mesh_base ≤ 2147483647 ∧
    mesh_stale_tex_missing_normal.normals.length < 4294967296 ∧
    ((∃ st, simple_mesh.compute_texcoordi kernel_numbers 1 2 3 4 mesh_stale_tex_missing_normal
        = Except.error (failure.out_of_range st)) ↔
      simple_mesh.get_nr_normals mesh_stale_tex_missing_normal
        < simple_mesh.get_nr_positions mesh_stale_tex_missing_normal) ∧
    mesh_stale_tex_missing_normal.normals.length
      < simple_mesh.get_nr_positions mesh_stale_tex_missing_normal ∧
    mesh_stale_tex_missing_normal.normals.length ≤ 2147483647 ∧
    (∃ st, simple_mesh.compute_texcoordi kernel_numbers 1 2 3 4 mesh_stale_tex_missing_normal
        = Except.error (failure.out_of_range st) ∧
      st.tex_coord_indices = [] ∧
      st.tex_coords.length = mesh_stale_tex_missing_normal.normals.length ∧
      st = simple_mesh.with_tex mesh_stale_tex_missing_normal st.tex_coords [] ∧
      (mesh_stale_tex_missing_normal.tex_coord_indices ≠ [] →
        st ≠ mesh_stale_tex_missing_normal)) ∧
    simple_mesh.compute_texcoordi kernel_numbers 1 2 3 4 mesh_stale_tex_missing_normal
      = Except.error (failure.out_of_range
          (simple_mesh.with_tex mesh_stale_tex_missing_normal [18] [])) ∧
    mesh_stale_tex_missing_normal.tex_coord_indices ≠ [] :=
  have h := C12_compute_texcoordi_raises_iff Nat Nat Nat Unit kernel_numbers 1 2 3 4
    mesh_stale_tex_missing_normal
  ⟨by decide, by decide, by decide, h.1 (by decide) (by decide) (by decide),
    by decide, by decide, h.2.1 (by decide) (by decide), rfl, by decide⟩

/-- C13: for every mesh, query point `p` and initial colour store, `pick_face(p)` ends
the same way, with the same colour store, on every normal pool that agrees with the
mesh's at the position index `c2p(begin_corner(f))` of the first corner of every face
`f`, whatever the other normals are; and the colour store it ends with, returned or
at a throw, is the initial one with the first three positions of some of the faces
coloured, face after face: a face colours all three of them or none. -/
theorem C13_pick_face_first_corner_normal (V3 V2 Mat C : Type) (K : pick_kernel V3 C)
    (m : simple_mesh V3 V2 Mat) (p : V3) (c : C) :
    (∀ ns2 : List V3,
      (∀ f b i, f < m.faces.length → begin_corner m.tosimple_mesh_base f = some b →
        c2p m.tosimple_mesh_base b = some i → m.normals[i]? = ns2[i]?) →
      simple_mesh.pick_face K { m with normals := ns2 } p c = simple_mesh.pick_face K m p c) ∧
    (∀ s, (simple_mesh.pick_face K m p c = Except.ok s ∨
        simple_mesh.pick_face K m p c = Except.error (failure.out_of_range s)) →
      ∃ hits : List Nat, hits.Sublist (List.range m.faces.length) ∧
        (∀ f, f ∈ hits →
          ∃ i1 i2 i3, simple_mesh.face_first_positions m f = some (i1, i2, i3) ∧
            simple_mesh.coloured_by m f = [i1, i2, i3]) ∧
        s = (hits.flatMap (simple_mesh.coloured_by m)).foldl K.set_color c) := by
  constructor
  · intro ns2 hagree
    exact for_int_congr m.faces.length _ _
      (fun i s hi => pick_face_step_normals K m ns2 p s i (fun b j hb hj => hagree i b j hi hb hj))
      c
  · intro s hs
    have hcol : ∀ hits : List Nat,
        (∀ f, f ∈ hits → ∃ i1 i2 i3, simple_mesh.face_first_positions m f = some (i1, i2, i3)) →
        ∀ f, f ∈ hits → ∃ i1 i2 i3, simple_mesh.face_first_positions m f = some (i1, i2, i3) ∧
          simple_mesh.coloured_by m f = [i1, i2, i3] := by
      intro hits hall f hf
      obtain ⟨i1, i2, i3, h⟩ := hall f hf
      refine ⟨i1, i2, i3, h, ?_⟩
      unfold simple_mesh.coloured_by
      rw [h]
    rcases pick_face_hits K m p c with ⟨s1, h1, hits, hsub, hall, hfold⟩ |
      ⟨s1, h1, hits, hsub, hall, hfold⟩ | hu
    · rcases hs with hs | hs
      · rw [h1] at hs
        have := Except.ok.inj hs
        subst this
        exact ⟨hits, hsub, hcol hits hall, hfold⟩
      · rw [h1] at hs
        exact absurd hs (by simp)
    · rcases hs with hs | hs
      · rw [h1] at hs
        exact absurd hs (by simp)
      · rw [h1] at hs
        have := failure.out_of_range.inj (Except.error.inj hs)
        subst this
        exact ⟨hits, hsub, hcol hits hall, hfold⟩
    · rcases hs with hs | hs
      · rw [hu] at hs
        exact absurd hs (by simp)
      · rw [hu] at hs
        exact absurd (Except.error.inj hs) (by simp)

/-- Witness for C13: the triangle-plus-quadrilateral mesh, whose faces have their first
corners at the position indices 0 and 2, against a normal pool that differs at the
position indices 1, 3 and 4; the query point 99 colours the triangle only. -/
theorem C13_pick_face_first_corner_normal_witness :
    (∀ f b i, f < mesh_tri_quad_pools.faces.length →
      begin_corner mesh_tri_quad_pools.tosimple_mesh_base f = some b →
      c2p mesh_tri_quad_pools.tosimple_mesh_base b = some i →
      mesh_tri_quad_pools.normals[i]? = [5, 999, 30, 0, 7][i]?) ∧
    simple_mesh.pick_face kernel_pick_numbers
        { mesh_tri_quad_pools with normals := [5, 999, 30, 0, 7] } 99 []
      = simple_mesh.pick_face kernel_pick_numbers mesh_tri_quad_pools 99 [] ∧
    simple_mesh.pick_face kernel_pick_numbers mesh_tri_quad_pools 99 [] = Except.ok [0, 1, 2] ∧
    ∃ hits : List Nat, hits.Sublist (List.range mesh_tri_quad_pools.faces.length) ∧
      (∀ f, f ∈ hits →
        ∃ i1 i2 i3, simple_mesh.face_first_positions mesh_tri_quad_pools f = some (i1, i2, i3) ∧
          simple_mesh.coloured_by mesh_tri_quad_pools f = [i1, i2, i3]) ∧
      [0, 1, 2] = (hits.flatMap (simple_mesh.coloured_by mesh_tri_quad_pools)).foldl
        kernel_pick_numbers.set_color [] :=
  have hagree : ∀ f b i, f < mesh_tri_quad_pools.faces.length →
      begin_corner mesh_tri_quad_pools.tosimple_mesh_base f = some b →
      c2p mesh_tri_quad_pools.tosimple_mesh_base b = some i →
      mesh_tri_quad_pools.normals[i]? = [5, 999, 30, 0, 7][i]? := by
    intro f b i hf hb hi
    have hf2 : f < 2 := hf
    interval_cases f
    · have hb0 : b = 0 := (Option.some.inj hb).symm
      subst hb0
      have hi0 : i = 0 := (Option.some.inj hi).symm
      subst hi0
      rfl
    · have hb3 : b = 3 := (Option.some.inj hb).symm
      subst hb3
      have hi2 : i = 2 := (Option.some.inj hi).symm
      subst hi2
      rfl
  have h := C13_pick_face_first_corner_normal Nat Nat Unit (List Nat) kernel_pick_numbers
    mesh_tri_quad_pools 99 []
  ⟨hagree, h.1 _ hagree, rfl, h.2 [0, 1, 2] (Or.inl rfl)⟩

end I3D
